import Mathlib

/-!
Verification of the kv-squirrel migration tool (`cmd/kv-squirrel/main.go`)
against its natural-language specification.

The Go program is shallowly embedded: the dynamic `interface{}` values read
back from the JSON export file become the inductive `GoVal`; the Redis client
calls become oracle functions (export side: `SourceClient`; import side: the
abstract `Client σ` record of state-transforming operations); Go's
`time.Duration` (an `int64` of nanoseconds) becomes `Int`; fallible calls
return `Except String` or pair an `Option String` error with the new state.
Go panics (unchecked type assertions) are distinguished from returned errors
by the `Outcome.crash` constructor.
-/

namespace KVSquirrel

/-- Dynamic Go value as produced by `encoding/json` decoding into
`interface{}`: JSON null, string, number (always decoded as `float64`, whose
numeric content we model abstractly by an `Int`), array, or object. -/
inductive GoVal where
  | vnull
  | vstr (s : String)
  | vfloat (x : Int)
  | varr (xs : List GoVal)
  | vmap (m : List (String × GoVal))

mutual

def goValDecEq : (a b : GoVal) → Decidable (a = b)
  | .vnull, .vnull => isTrue rfl
  | .vstr a, .vstr b =>
    match String.decEq a b with
    | isTrue h => isTrue (by rw [h])
    | isFalse h => isFalse (by intro hh; cases hh; exact h rfl)
  | .vfloat a, .vfloat b =>
    match Int.decEq a b with
    | isTrue h => isTrue (by rw [h])
    | isFalse h => isFalse (by intro hh; cases hh; exact h rfl)
  | .varr xs, .varr ys =>
    match goValListDecEq xs ys with
    | isTrue h => isTrue (by rw [h])
    | isFalse h => isFalse (by intro hh; cases hh; exact h rfl)
  | .vmap m, .vmap n =>
    match goValMapDecEq m n with
    | isTrue h => isTrue (by rw [h])
    | isFalse h => isFalse (by intro hh; cases hh; exact h rfl)
  | .vnull, .vstr _ => isFalse (by intro h; cases h)
  | .vnull, .vfloat _ => isFalse (by intro h; cases h)
  | .vnull, .varr _ => isFalse (by intro h; cases h)
  | .vnull, .vmap _ => isFalse (by intro h; cases h)
  | .vstr _, .vnull => isFalse (by intro h; cases h)
  | .vstr _, .vfloat _ => isFalse (by intro h; cases h)
  | .vstr _, .varr _ => isFalse (by intro h; cases h)
  | .vstr _, .vmap _ => isFalse (by intro h; cases h)
  | .vfloat _, .vnull => isFalse (by intro h; cases h)
  | .vfloat _, .vstr _ => isFalse (by intro h; cases h)
  | .vfloat _, .varr _ => isFalse (by intro h; cases h)
  | .vfloat _, .vmap _ => isFalse (by intro h; cases h)
  | .varr _, .vnull => isFalse (by intro h; cases h)
  | .varr _, .vstr _ => isFalse (by intro h; cases h)
  | .varr _, .vfloat _ => isFalse (by intro h; cases h)
  | .varr _, .vmap _ => isFalse (by intro h; cases h)
  | .vmap _, .vnull => isFalse (by intro h; cases h)
  | .vmap _, .vstr _ => isFalse (by intro h; cases h)
  | .vmap _, .vfloat _ => isFalse (by intro h; cases h)
  | .vmap _, .varr _ => isFalse (by intro h; cases h)

def goValListDecEq : (xs ys : List GoVal) → Decidable (xs = ys)
  | [], [] => isTrue rfl
  | [], _ :: _ => isFalse (by intro h; cases h)
  | _ :: _, [] => isFalse (by intro h; cases h)
  | x :: xs, y :: ys =>
    match goValDecEq x y, goValListDecEq xs ys with
    | isTrue h1, isTrue h2 => isTrue (by rw [h1, h2])
    | isFalse h1, _ => isFalse (by intro hh; cases hh; exact h1 rfl)
    | _, isFalse h2 => isFalse (by intro hh; cases hh; exact h2 rfl)

def goValMapDecEq : (m n : List (String × GoVal)) → Decidable (m = n)
  | [], [] => isTrue rfl
  | [], _ :: _ => isFalse (by intro h; cases h)
  | _ :: _, [] => isFalse (by intro h; cases h)
  | (f, x) :: xs, (g, y) :: ys =>
    match String.decEq f g, goValDecEq x y, goValMapDecEq xs ys with
    | isTrue h0, isTrue h1, isTrue h2 => isTrue (by rw [h0, h1, h2])
    | isFalse h0, _, _ => isFalse (by intro hh; cases hh; exact h0 rfl)
    | _, isFalse h1, _ => isFalse (by intro hh; cases hh; exact h1 rfl)
    | _, _, isFalse h2 => isFalse (by intro hh; cases hh; exact h2 rfl)

end

instance : DecidableEq GoVal := goValDecEq

/-- One `redis.Z` member of a sorted set: a `float64` score (modelled by
`Int`) and a dynamic member value. -/
structure ZMember where
  score : Int
  member : GoVal
deriving DecidableEq

/-- `KeyData` (main.go lines 17-23): a key snapshot as it stands in the JSON
export file.  `ttl` is Go's `time.Duration` in nanoseconds (`-1` is the
client's no-expiration sentinel, `-2` its no-such-key sentinel); `value` is
the decomposed dynamic value (`nil` when absent, i.e. `none`); `dump` is the
opaque DUMP payload bytes (`nil`/empty slice when absent). -/
structure KeyData where
  key : String
  type : String
  ttl : Int
  value : Option GoVal
  dump : Option (List Nat)
deriving DecidableEq

/-- Source-cluster client (export side): each Redis read used by
`exportKey`/`exportValueByType`, as an oracle returning either a result or a
client error. -/
structure SourceClient where
  ttl : String → Except String Int
  typeOf : String → Except String String
  dump : String → Except String (List Nat)
  get : String → Except String String
  lrange : String → Except String (List String)
  smembers : String → Except String (List String)
  zrangeWithScores : String → Except String (List (Int × String))
  hgetall : String → Except String (List (String × String))

/-- `exportValueByType` (main.go lines 263-283): type-dispatched decomposed
read of a key's value.  The Go function returns `interface{}`; we return the
value in the dynamic (JSON-file) form `GoVal` that the import side will see:
`[]string` becomes an array of strings, `map[string]string` an object of
strings, and `[]redis.Z` an array of objects with `Score`/`Member` fields
(the form `encoding/json` produces for `redis.Z`). -/
def exportValueByType (c : SourceClient) (key keyType : String) :
    Except String GoVal :=
  match keyType with
  | "string" => (c.get key).map GoVal.vstr
  | "list" => (c.lrange key).map (fun xs => .varr (xs.map GoVal.vstr))
  | "set" => (c.smembers key).map (fun xs => .varr (xs.map GoVal.vstr))
  | "zset" =>
    (c.zrangeWithScores key).map (fun zs =>
      .varr (zs.map (fun z =>
        .vmap [("Score", .vfloat z.1), ("Member", .vstr z.2)])))
  | "hash" =>
    (c.hgetall key).map (fun m =>
      .vmap (m.map (fun p => (p.1, GoVal.vstr p.2))))
  | _ => .error ("unsupported type:   " ++ keyType)

/-- `exportKey` (main.go lines 224-260): capture one key.  Reads TTL, then
type, then either the opaque DUMP payload (when `useDump`) or the decomposed
value.  Note that the TTL is stored exactly as read — no normalization. -/
def exportKey (c : SourceClient) (key : String) (useDump : Bool) :
    Except String KeyData :=
  match c.ttl key with
  | .error e => .error ("failed to get TTL:   " ++ e)
  | .ok ttl =>
    match c.typeOf key with
    | .error e => .error ("failed to get type:  " ++ e)
    | .ok keyType =>
      if useDump then
        match c.dump key with
        | .error e => .error ("failed to dump key: " ++ e)
        | .ok bs => .ok ⟨key, keyType, ttl, none, some bs⟩
      else
        match exportValueByType c key keyType with
        | .error e => .error ("failed to export value:   " ++ e)
        | .ok v => .ok ⟨key, keyType, ttl, some v, none⟩

/-- `sync.Map.LoadOrStore` as used in the discovery loop (main.go line 146):
returns the `loaded` flag (`true` when the key was already present) and the
resulting key set.  The set is modelled as a list in insertion order. -/
def loadOrStore (m : List String) (k : String) : Bool × List String :=
  if k ∈ m then (true, m) else (false, m ++ [k])

/-- The discovery phase (main.go lines 132-169): every key observation from
every node scan is pushed through `loadOrStore`; the run's unique key list is
what `allKeys.Range` then yields.  `obs` is the combined stream of key
observations (any interleaving of the per-node scans). -/
def scanKeys (obs : List String) : List String :=
  obs.foldl (fun m k => (loadOrStore m k).2) []

/-- The capture loop of `exportKeys` (main.go lines 179-199): walk the unique
keys, capture each via the oracle; a failure increments the failure counter
and continues, a success appends the snapshot and increments the success
counter.  Returns (snapshot list, exported count, failed count). -/
def exportLoop (capture : String → Except String KeyData) :
    List String → List KeyData × Nat × Nat
  | [] => ([], 0, 0)
  | k :: ks =>
    match capture k with
    | .error _ =>
      let r := exportLoop capture ks
      (r.1, r.2.1, r.2.2 + 1)
    | .ok kd =>
      let r := exportLoop capture ks
      (kd :: r.1, r.2.1 + 1, r.2.2)

/-- `exportKeys` after the discovery phase (main.go lines 173-220): given the
unique key list and the per-key capture oracle, either return early with no
output file when no keys matched (lines 173-176), or run the capture loop and
write the snapshot list to the output file.  The first component of the
result is the output file's content — `none` when no file was created. -/
def exportKeys (keys : List String)
    (capture : String → Except String KeyData) :
    Except String (Option (List KeyData) × Nat × Nat) :=
  if keys.isEmpty then .ok (none, 0, 0)
  else
    let r := exportLoop capture keys
    .ok (some r.1, r.2.1, r.2.2)

/-- Target-cluster client (import side): each Redis write used by
`importKey`/`importValueByType`, abstracted over a state type `σ`.  Each
operation returns a possible error message together with the resulting state
(a failed call may or may not have taken effect; the concrete models below
leave the state unchanged on error). -/
structure Client (σ : Type) where
  set : σ → String → String → Int → Option String × σ
  rpush : σ → String → GoVal → Option String × σ
  sadd : σ → String → GoVal → Option String × σ
  hset : σ → String → List (String × GoVal) → Option String × σ
  zadd : σ → String → List ZMember → Option String × σ
  expire : σ → String → Int → Option String × σ
  restoreReplace : σ → String → Int → List Nat → Option String × σ

/-- Result of importing one snapshot: normal success, a returned error
(recovered by the caller), or a Go panic (an unchecked type assertion
failing), which crashes the whole process.  Each carries the target state
reached so far. -/
inductive Outcome (σ : Type) where
  | ok (s : σ)
  | err (msg : String) (s : σ)
  | crash (msg : String) (s : σ)

/-- The state component of an outcome. -/
def Outcome.state : Outcome σ → σ
  | .ok s => s
  | .err _ s => s
  | .crash _ s => s

/-- `true` unless the outcome is a panic. -/
def Outcome.noCrash : Outcome σ → Bool
  | .crash _ _ => false
  | _ => true

/-- `true` exactly on normal success. -/
def Outcome.isOk : Outcome σ → Bool
  | .ok _ => true
  | _ => false

/-- Checked Go type assertion `keyData.Value.(string)` (ok-flag form). -/
def asString : Option GoVal → Option String
  | some (.vstr s) => some s
  | _ => none

/-- Checked Go type assertion to a slice of dynamic values. -/
def asArr : Option GoVal → Option (List GoVal)
  | some (.varr xs) => some xs
  | _ => none

/-- Checked Go type assertion to a dynamic string-keyed map. -/
def asMap : Option GoVal → Option (List (String × GoVal))
  | some (.vmap m) => some m
  | _ => none

/-- Go map indexing `zval[f]`: yields the zero value `nil` (here `vnull`)
when the field is absent. -/
def mapIndex (m : List (String × GoVal)) (f : String) : GoVal :=
  match m.find? (fun p => p.1 == f) with
  | some p => p.2
  | none => .vnull

/-- The member-building loop of the zset branch (main.go lines 431-438).
The two type assertions there are UNCHECKED: `v.(map[string]interface{})`
and `zval["Score"].(float64)` panic when they fail; `.error` here therefore
means a Go panic, not a returned error. -/
def buildZ : List GoVal → Except String (List ZMember)
  | [] => .ok []
  | v :: vs =>
    match v with
    | .vmap zval =>
      match mapIndex zval "Score" with
      | .vfloat sc =>
        (buildZ vs).map (fun ms => ⟨sc, mapIndex zval "Member"⟩ :: ms)
      | _ => .error "interface conversion: Score is not a float64"
    | _ => .error "interface conversion: element is not a map"

/-- The per-element RPush loop of the list branch (main.go lines 391-395):
stops at the first failing call, returning its error. -/
def rpushAll (c : Client σ) (s : σ) (key : String) :
    List GoVal → Outcome σ
  | [] => .ok s
  | v :: vs =>
    match c.rpush s key v with
    | (some e, s') => .err e s'
    | (none, s') => rpushAll c s' key vs

/-- The per-element SAdd loop of the set branch (main.go lines 405-409). -/
def saddAll (c : Client σ) (s : σ) (key : String) :
    List GoVal → Outcome σ
  | [] => .ok s
  | v :: vs =>
    match c.sadd s key v with
    | (some e, s') => .err e s'
    | (none, s') => saddAll c s' key vs

/-- The trailing conditional expiration call shared by the list, set, hash
and zset branches (e.g. main.go lines 396-398): when the snapshot's TTL is
positive, `client.Expire(ctx, key, keyData.TTL)` is issued and its result is
DISCARDED (the Go code ignores the returned error), so the branch reports
success regardless of the expiration call's outcome. -/
def expireIfPositive (c : Client σ) (s : σ) (key : String) (ttl : Int) :
    Outcome σ :=
  if ttl > 0 then .ok (c.expire s key ttl).2 else .ok s

/-- `importValueByType` (main.go lines 373-451): type-dispatched decomposed
reconstruction of one snapshot on the target. -/
def importValueByType (c : Client σ) (s : σ) (kd : KeyData) : Outcome σ :=
  match kd.type with
  | "string" =>
    match asString kd.value with
    | none => .err "invalid string value" s
    | some val =>
      match c.set s kd.key val kd.ttl with
      | (some e, s') => .err e s'
      | (none, s') => .ok s'
  | "list" =>
    match asArr kd.value with
    | none => .err "invalid list value" s
    | some vals =>
      match rpushAll c s kd.key vals with
      | .ok s' => expireIfPositive c s' kd.key kd.ttl
      | r => r
  | "set" =>
    match asArr kd.value with
    | none => .err "invalid set value" s
    | some vals =>
      match saddAll c s kd.key vals with
      | .ok s' => expireIfPositive c s' kd.key kd.ttl
      | r => r
  | "hash" =>
    match asMap kd.value with
    | none => .err "invalid hash value" s
    | some vals =>
      match c.hset s kd.key vals with
      | (some e, s') => .err e s'
      | (none, s') => expireIfPositive c s' kd.key kd.ttl
  | "zset" =>
    match asArr kd.value with
    | none => .err "invalid zset value" s
    | some vals =>
      match buildZ vals with
      | .error msg => .crash msg s
      | .ok members =>
        match c.zadd s kd.key members with
        | (some e, s') => .err e s'
        | (none, s') => expireIfPositive c s' kd.key kd.ttl
  | t => .err ("unsupported type:  " ++ t) s

/-- The guard of `importKey` (main.go line 358):
`useDump && len(keyData.Dump) > 0`. -/
def usesDumpPath (kd : KeyData) (useDump : Bool) : Bool :=
  useDump && (kd.dump.getD []).length > 0

/-- `importKey` (main.go lines 357-370): restore one snapshot.  When the
opaque strategy is on and a payload is present, a negative TTL is normalized
to `0` (no expiration) and an atomic `RestoreReplace` is issued; otherwise
the decomposed reconstruction runs. -/
def importKey (c : Client σ) (s : σ) (kd : KeyData) (useDump : Bool) :
    Outcome σ :=
  if usesDumpPath kd useDump then
    let ttl := kd.ttl
    let ttl := if ttl < 0 then 0 else ttl
    match c.restoreReplace s kd.key ttl (kd.dump.getD []) with
    | (some e, s') => .err e s'
    | (none, s') => .ok s'
  else
    importValueByType c s kd

/-- Aggregate result of an import run: final target state, success and
failure counters, and the panic message if the run crashed part-way. -/
structure RunOut (σ : Type) where
  state : σ
  imported : Nat
  failed : Nat
  panicMsg : Option String

/-- The import loop of `importKeys` (main.go lines 334-346): walk the
snapshot list; a per-key error increments the failure counter and continues;
a panic aborts the run on the spot. -/
def importKeys (c : Client σ) (s : σ) (kds : List KeyData)
    (useDump : Bool) : RunOut σ :=
  match kds with
  | [] => ⟨s, 0, 0, none⟩
  | kd :: rest =>
    match importKey c s kd useDump with
    | .ok s' =>
      let r := importKeys c s' rest useDump
      ⟨r.state, r.imported + 1, r.failed, r.panicMsg⟩
    | .err _ s' =>
      let r := importKeys c s' rest useDump
      ⟨r.state, r.imported, r.failed + 1, r.panicMsg⟩
    | .crash m s' => ⟨s', 0, 0, some m⟩

/-! ## Concrete target-state model

The target cluster is an external collaborator of the tool; to settle
state-level claims (idempotency of import) we instantiate `Client` with a
model of the engine's documented command semantics, per spec §4.5: SET
overwrites any value (carrying its own TTL argument), RPUSH appends, SADD
inserts if absent, HSET/ZADD upsert by field/member, EXPIRE sets the
remaining TTL of an existing key, RESTORE REPLACE atomically overwrites with
an opaque payload (TTL argument 0 meaning no expiration, negative rejected).

Two client-library details matter and are modelled after go-redis v9: the
no-expiration TTL read is `-1` (nanosecond) and `Set` sends `KEEPTTL` when
given exactly that duration, and `HSET`/`ZADD` with zero fields/members is a
protocol error. -/

/-- Keyed in-place update of an association list: overwrite the first pair
with the given key, or append a new pair.  This is the field/member update
semantics of `HSET` and `ZADD`. -/
def upsertKV [DecidableEq κ] (m : List (κ × α)) (k : κ) (a : α) :
    List (κ × α) :=
  match m with
  | [] => [(k, a)]
  | p :: rest => if p.1 = k then (k, a) :: rest else p :: upsertKV rest k a

/-- Fold a pair list into an association list, last write per key
winning. -/
def upsertAll [DecidableEq κ] (m : List (κ × α)) (fs : List (κ × α)) :
    List (κ × α) :=
  fs.foldl (fun acc p => upsertKV acc p.1 p.2) m

/-- Association-list lookup (first match). -/
def lookupKV [DecidableEq κ] (m : List (κ × α)) (k : κ) : Option α :=
  match m with
  | [] => none
  | p :: rest => if p.1 = k then some p.2 else lookupKV rest k

/-- A live value on the target: one of the five supported shapes, or the
result of replaying an opaque payload.  A sorted set is a member-to-score
map. -/
inductive RVal where
  | rstr (v : String)
  | rlist (xs : List GoVal)
  | rset (xs : List GoVal)
  | rhash (m : List (String × GoVal))
  | rzset (m : List (GoVal × Int))
  | rdump (payload : List Nat)
deriving DecidableEq

/-- One live key: its value and its remaining TTL (`none` = no
expiration). -/
structure Entry where
  val : RVal
  ttl : Option Int
deriving DecidableEq

/-- The target keyspace. -/
def RState : Type := String → Option Entry

/-- The empty target keyspace. -/
def emptyState : RState := fun _ => none

/-- Point update of the keyspace. -/
def updState (s : RState) (k : String) (e : Option Entry) : RState :=
  fun k' => if k' = k then e else s k'

/-- `SET key val` with a duration argument: positive sets the expiration,
the `-1` (`KeepTTL`) sentinel keeps the previous expiration, any other
non-positive duration clears it.  Overwrites a value of any type. -/
def rSet (s : RState) (k v : String) (t : Int) : Option String × RState :=
  let newTtl : Option Int :=
    if t > 0 then some t
    else if t = -1 then (s k).bind Entry.ttl
    else none
  (none, updState s k (some ⟨.rstr v, newTtl⟩))

/-- `RPUSH key v`: creates a one-element list, appends to a list, and is a
wrong-type error against any other value. -/
def rRPush (s : RState) (k : String) (v : GoVal) : Option String × RState :=
  match s k with
  | none => (none, updState s k (some ⟨.rlist [v], none⟩))
  | some e =>
    match e.val with
    | .rlist xs => (none, updState s k (some ⟨.rlist (xs ++ [v]), e.ttl⟩))
    | _ => (some "WRONGTYPE", s)

/-- Insert-if-absent at the tail, the member-set update of `SADD`. -/
def saddElem (xs : List GoVal) (v : GoVal) : List GoVal :=
  if v ∈ xs then xs else xs ++ [v]

/-- `SADD key v`: creates a one-element set, inserts if absent, and is a
wrong-type error against any other value. -/
def rSAdd (s : RState) (k : String) (v : GoVal) : Option String × RState :=
  match s k with
  | none => (none, updState s k (some ⟨.rset [v], none⟩))
  | some e =>
    match e.val with
    | .rset xs => (none, updState s k (some ⟨.rset (saddElem xs v), e.ttl⟩))
    | _ => (some "WRONGTYPE", s)

/-- `HSET key fields...`: zero fields is a protocol error; otherwise creates
or updates a hash, wrong-type error against any other value. -/
def rHSet (s : RState) (k : String) (fs : List (String × GoVal)) :
    Option String × RState :=
  if fs.isEmpty then (some "ERR wrong number of arguments", s)
  else
    match s k with
    | none => (none, updState s k (some ⟨.rhash (upsertAll [] fs), none⟩))
    | some e =>
      match e.val with
      | .rhash m =>
        (none, updState s k (some ⟨.rhash (upsertAll m fs), e.ttl⟩))
      | _ => (some "WRONGTYPE", s)

/-- Fold a `ZADD` member list into a member-to-score map, last score per
member winning. -/
def zaddList (m : List (GoVal × Int)) (ms : List ZMember) :
    List (GoVal × Int) :=
  upsertAll m (ms.map (fun z => (z.member, z.score)))

/-- `ZADD key members...`: zero members is a protocol error; otherwise
creates or upserts a sorted set, wrong-type error against any other
value. -/
def rZAdd (s : RState) (k : String) (ms : List ZMember) :
    Option String × RState :=
  if ms.isEmpty then (some "ERR wrong number of arguments", s)
  else
    match s k with
    | none => (none, updState s k (some ⟨.rzset (zaddList [] ms), none⟩))
    | some e =>
      match e.val with
      | .rzset m =>
        (none, updState s k (some ⟨.rzset (zaddList m ms), e.ttl⟩))
      | _ => (some "WRONGTYPE", s)

/-- `EXPIRE key t`: no-op on a missing key; a positive duration sets the
remaining TTL; a non-positive one deletes the key. -/
def rExpire (s : RState) (k : String) (t : Int) : Option String × RState :=
  match s k with
  | none => (none, s)
  | some e =>
    if t > 0 then (none, updState s k (some ⟨e.val, some t⟩))
    else (none, updState s k none)

/-- `RESTORE key t payload REPLACE`: a negative TTL argument is rejected;
`0` means no expiration; the key is overwritten atomically whatever its
previous value. -/
def rRestoreReplace (s : RState) (k : String) (t : Int)
    (payload : List Nat) : Option String × RState :=
  if t < 0 then (some "ERR Invalid TTL value", s)
  else
    (none,
      updState s k (some ⟨.rdump payload, if t > 0 then some t else none⟩))

/-- The `Client` instance backed by the keyspace model. -/
def stateClient : Client RState :=
  ⟨rSet, rRPush, rSAdd, rHSet, rZAdd, rExpire, rRestoreReplace⟩

/-- One import step on the modelled target: the state reached by importing
one snapshot (whatever the outcome). -/
def step (kd : KeyData) (useDump : Bool) (s : RState) : RState :=
  (importKey stateClient s kd useDump).state

/-- Iterated import steps (the state component of an import run that does
not crash). -/
def foldSteps (u : Bool) (kds : List KeyData) (s : RState) : RState :=
  kds.foldl (fun t kd => step kd u t) s

/-! ## Per-key denotations

The following functions restate, at the level of a single key's entry, what
one snapshot's import does on the modelled target.  They are proof
artifacts: `importKey_state` below shows that `importKey` against
`stateClient` is exactly a point update of the keyspace by `snapEffect`. -/

/-- Entry-level `SET` (see `rSet`). -/
def setE (v : String) (t : Int) (e : Option Entry) : Option Entry :=
  some ⟨.rstr v,
    if t > 0 then some t else if t = -1 then e.bind Entry.ttl else none⟩

/-- Entry-level `EXPIRE` with a positive duration (see `rExpire`). -/
def expireE (t : Int) : Option Entry → Option Entry
  | none => none
  | some en => if t > 0 then some ⟨en.val, some t⟩ else none

/-- Entry-level RPush loop: ok flag and resulting entry. -/
def rpushAllE : Option Entry → List GoVal → Bool × Option Entry
  | e, [] => (true, e)
  | none, v :: vs => rpushAllE (some ⟨.rlist [v], none⟩) vs
  | some en, v :: vs =>
    match en.val with
    | .rlist xs => rpushAllE (some ⟨.rlist (xs ++ [v]), en.ttl⟩) vs
    | _ => (false, some en)

/-- Entry-level SAdd loop: ok flag and resulting entry. -/
def saddAllE : Option Entry → List GoVal → Bool × Option Entry
  | e, [] => (true, e)
  | none, v :: vs => saddAllE (some ⟨.rset [v], none⟩) vs
  | some en, v :: vs =>
    match en.val with
    | .rset xs => saddAllE (some ⟨.rset (saddElem xs v), en.ttl⟩) vs
    | _ => (false, some en)

/-- Entry-level `HSET` (see `rHSet`). -/
def hsetE (e : Option Entry) (fs : List (String × GoVal)) :
    Bool × Option Entry :=
  if fs.isEmpty then (false, e)
  else
    match e with
    | none => (true, some ⟨.rhash (upsertAll [] fs), none⟩)
    | some en =>
      match en.val with
      | .rhash m => (true, some ⟨.rhash (upsertAll m fs), en.ttl⟩)
      | _ => (false, some en)

/-- Entry-level `ZADD` (see `rZAdd`). -/
def zaddE (e : Option Entry) (ms : List ZMember) : Bool × Option Entry :=
  if ms.isEmpty then (false, e)
  else
    match e with
    | none => (true, some ⟨.rzset (zaddList [] ms), none⟩)
    | some en =>
      match en.val with
      | .rzset m => (true, some ⟨.rzset (zaddList m ms), en.ttl⟩)
      | _ => (false, some en)

/-- Entry-level counterpart of the trailing conditional expiration: applied
only when the preceding bulk insert succeeded and the TTL is positive. -/
def seqExpire (t : Int) (r : Bool × Option Entry) : Option Entry :=
  if r.1 = true ∧ t > 0 then expireE t r.2 else r.2

/-- What importing one snapshot does to its own key's entry on the modelled
target (other keys are untouched; see `importKey_state`). -/
def snapEffect (kd : KeyData) (u : Bool) (e : Option Entry) : Option Entry :=
  if usesDumpPath kd u then
    some ⟨.rdump (kd.dump.getD []),
      if kd.ttl > 0 then some kd.ttl else none⟩
  else
    match kd.type with
    | "string" =>
      match asString kd.value with
      | none => e
      | some v => setE v kd.ttl e
    | "list" =>
      match asArr kd.value with
      | none => e
      | some vals => seqExpire kd.ttl (rpushAllE e vals)
    | "set" =>
      match asArr kd.value with
      | none => e
      | some vals => seqExpire kd.ttl (saddAllE e vals)
    | "hash" =>
      match asMap kd.value with
      | none => e
      | some fs => seqExpire kd.ttl (hsetE e fs)
    | "zset" =>
      match asArr kd.value with
      | none => e
      | some vals =>
        match buildZ vals with
        | .error _ => e
        | .ok ms => seqExpire kd.ttl (zaddE e ms)
    | _ => e

/-- The snapshots whose import is idempotent on the target: those taking the
opaque restore path, and decomposed snapshots that are not non-empty lists,
do not panic, and carry no duplicate hash fields / sorted-set members.
Every snapshot the export path itself produces satisfies the last three
conditions. -/
def goodSnap (useDump : Bool) (kd : KeyData) : Bool :=
  usesDumpPath kd useDump ||
    (match kd.type, kd.value with
     | "list", some (.varr vals) => vals.isEmpty
     | "zset", some (.varr vals) =>
       match buildZ vals with
       | .ok ms => decide ((ms.map ZMember.member).Nodup)
       | .error _ => false
     | "hash", some (.vmap m) => decide ((m.map Prod.fst).Nodup)
     | _, _ => true)

/-- Outcome of one client call, as `importKey` treats it. -/
def callOutcome (r : Option String × σ) : Outcome σ :=
  match r with
  | (some e, s') => .err e s'
  | (none, s') => .ok s'

/-! ## Concrete oracles for evaluations -/

/-- A target client over a trivial state in which every call succeeds. -/
def unitClient : Client Unit :=
  ⟨fun _ _ _ _ => (none, ()), fun _ _ _ => (none, ()),
   fun _ _ _ => (none, ()), fun _ _ _ => (none, ()),
   fun _ _ _ => (none, ()), fun _ _ _ => (none, ()),
   fun _ _ _ _ => (none, ())⟩

/-- A target client in which every value write succeeds but every
expiration-set call fails. -/
def expFailClient : Client Unit :=
  ⟨fun _ _ _ _ => (none, ()), fun _ _ _ => (none, ()),
   fun _ _ _ => (none, ()), fun _ _ _ => (none, ()),
   fun _ _ _ => (none, ()),
   fun _ _ _ => (some "i/o timeout", ()),
   fun _ _ _ _ => (none, ())⟩

/-- A source cluster holding, at every key, a string with no expiration
(TTL read `-1`) whose DUMP payload is the bytes `[0, 1]`. -/
def srcNoExpire : SourceClient :=
  ⟨fun _ => .ok (-1), fun _ => .ok "string", fun _ => .ok [0, 1],
   fun _ => .ok "v", fun _ => .ok [], fun _ => .ok [],
   fun _ => .ok [], fun _ => .ok []⟩

/-- A source cluster holding, at every key, a key of the unsupported type
`stream` whose DUMP payload is the bytes `[1, 2]`, with no expiration. -/
def srcStream : SourceClient :=
  ⟨fun _ => .ok (-1), fun _ => .ok "stream", fun _ => .ok [1, 2],
   fun _ => .ok "v", fun _ => .ok [], fun _ => .ok [],
   fun _ => .ok [], fun _ => .ok []⟩

/-- A capture oracle that fails on the key `bad` (an unsupported-type
capture error) and succeeds on every other key. -/
def captureOneBad : String → Except String KeyData := fun k =>
  if k = "bad" then .error "unsupported type:   stream"
  else .ok ⟨k, "string", 0, some (.vstr "v"), none⟩

/-! ## Idempotency machinery for the modelled target (C8) -/

lemma updState_self (s : RState) (k : String) (e : Option Entry) :
    updState s k e k = e := by
  simp [updState]

lemma updState_other (s : RState) (k : String) (e : Option Entry)
    (k' : String) (h : k' ≠ k) : updState s k e k' = s k' := by
  simp [updState, h]

lemma updState_collapse (s : RState) (k : String) (e1 e2 : Option Entry) :
    updState (updState s k e1) k e2 = updState s k e2 := by
  funext k'
  by_cases h : k' = k <;> simp [updState, h]

lemma updState_id (s : RState) (k : String) : updState s k (s k) = s := by
  funext k'
  by_cases h : k' = k <;> simp [updState, h]

lemma lookupKV_upsertKV_self [DecidableEq κ] (m : List (κ × α)) (k : κ)
    (a : α) : lookupKV (upsertKV m k a) k = some a := by
  induction m with
  | nil => simp [upsertKV, lookupKV]
  | cons p rest ih =>
    by_cases h : p.1 = k
    · simp [upsertKV, lookupKV, h]
    · simp [upsertKV, lookupKV, h, ih]

lemma lookupKV_upsertKV_other [DecidableEq κ] :
    ∀ (m : List (κ × α)) (k k' : κ) (a : α), k' ≠ k →
      lookupKV (upsertKV m k a) k' = lookupKV m k' := by
  intro m
  induction m with
  | nil =>
    intro k k' a h
    simp only [upsertKV, lookupKV]
    rw [if_neg (fun hh : k = k' => h hh.symm)]
  | cons q rest ih =>
    intro k k' a h
    by_cases hq : q.1 = k
    · simp only [upsertKV, if_pos hq, lookupKV]
      rw [if_neg (fun hh : k = k' => h hh.symm), if_neg (by rw [hq]; exact fun hh : k = k' => h hh.symm)]
    · simp only [upsertKV, if_neg hq, lookupKV]
      by_cases hq2 : q.1 = k'
      · simp [hq2]
      · simp [hq2, ih k k' a h]

lemma lookupKV_upsertAll_notin [DecidableEq κ] :
    ∀ (fs : List (κ × α)) (m : List (κ × α)) (k : κ),
      k ∉ fs.map Prod.fst →
      lookupKV (upsertAll m fs) k = lookupKV m k := by
  intro fs
  induction fs with
  | nil => intro m k _; rfl
  | cons p rest ih =>
    intro m k hk
    have hk1 : p.1 ≠ k := by
      intro hEq; exact hk (by simp [hEq])
    have hk2 : k ∉ rest.map Prod.fst := by
      intro hEq; exact hk (by simp [hEq])
    have hstep : upsertAll m (p :: rest) = upsertAll (upsertKV m p.1 p.2) rest := rfl
    rw [hstep, ih _ k hk2, lookupKV_upsertKV_other m p.1 k p.2 (Ne.symm hk1)]

lemma upsertKV_of_lookup [DecidableEq κ] :
    ∀ (m : List (κ × α)) (k : κ) (a : α),
      lookupKV m k = some a → upsertKV m k a = m := by
  intro m
  induction m with
  | nil => intro k a h; cases h
  | cons p rest ih =>
    intro k a h
    by_cases hk : p.1 = k
    · simp only [lookupKV, if_pos hk] at h
      cases h
      simp only [upsertKV, if_pos hk]
      rw [← hk]
    · simp only [lookupKV, if_neg hk] at h
      simp only [upsertKV, if_neg hk]
      rw [ih k a h]

lemma upsertAll_idem [DecidableEq κ] :
    ∀ (fs : List (κ × α)), (fs.map Prod.fst).Nodup →
      ∀ m : List (κ × α), upsertAll (upsertAll m fs) fs = upsertAll m fs := by
  intro fs
  induction fs with
  | nil => intro _ m; rfl
  | cons p rest ih =>
    intro hnd m
    have hp : p.1 ∉ rest.map Prod.fst := by
      simp only [List.map_cons, List.nodup_cons] at hnd
      exact hnd.1
    have hrest : (rest.map Prod.fst).Nodup := by
      simp only [List.map_cons, List.nodup_cons] at hnd
      exact hnd.2
    have hstep : ∀ m' : List (κ × α),
        upsertAll m' (p :: rest) = upsertAll (upsertKV m' p.1 p.2) rest := fun _ => rfl
    rw [hstep, hstep]
    have hlook : lookupKV (upsertAll (upsertKV m p.1 p.2) rest) p.1 = some p.2 := by
      rw [lookupKV_upsertAll_notin rest _ p.1 hp]
      exact lookupKV_upsertKV_self m p.1 p.2
    rw [upsertKV_of_lookup _ p.1 p.2 hlook]
    exact ih hrest (upsertKV m p.1 p.2)

lemma mem_saddElem_self (xs : List GoVal) (v : GoVal) : v ∈ saddElem xs v := by
  unfold saddElem
  by_cases h : v ∈ xs <;> simp [h]

lemma mem_saddElem_mono (xs : List GoVal) (v w : GoVal) (h : w ∈ xs) :
    w ∈ saddElem xs v := by
  unfold saddElem
  by_cases hv : v ∈ xs <;> simp [hv, h]

lemma saddElem_of_mem (xs : List GoVal) (v : GoVal) (h : v ∈ xs) :
    saddElem xs v = xs := by
  simp [saddElem, h]

lemma mem_saddFold_mono :
    ∀ (vs : List GoVal) (xs : List GoVal) (w : GoVal), w ∈ xs →
      w ∈ vs.foldl saddElem xs := by
  intro vs
  induction vs with
  | nil => intro xs w h; simpa using h
  | cons v rest ih =>
    intro xs w h
    exact ih (saddElem xs v) w (mem_saddElem_mono xs v w h)

lemma mem_saddFold_of_mem :
    ∀ (vs : List GoVal) (xs : List GoVal) (w : GoVal), w ∈ vs →
      w ∈ vs.foldl saddElem xs := by
  intro vs
  induction vs with
  | nil => intro xs w h; cases h
  | cons v rest ih =>
    intro xs w h
    rcases List.mem_cons.mp h with h1 | h1
    · subst h1
      exact mem_saddFold_mono rest (saddElem xs w) w (mem_saddElem_self xs w)
    · exact ih (saddElem xs v) w h1

lemma saddFold_absorb :
    ∀ (vs : List GoVal) (xs : List GoVal),
      (∀ w ∈ vs, w ∈ xs) → vs.foldl saddElem xs = xs := by
  intro vs
  induction vs with
  | nil => intro xs _; rfl
  | cons v rest ih =>
    intro xs h
    have h1 : saddElem xs v = xs := saddElem_of_mem xs v (h v (by simp))
    simp only [List.foldl_cons, h1]
    exact ih xs (fun w hw => h w (by simp [hw]))

lemma saddFold_twice :
    ∀ (vs : List GoVal) (xs : List GoVal),
      vs.foldl saddElem (vs.foldl saddElem xs) = vs.foldl saddElem xs := by
  intro vs xs
  exact saddFold_absorb vs (vs.foldl saddElem xs)
    (fun w hw => mem_saddFold_of_mem vs xs w hw)

lemma stateClient_set : stateClient.set = rSet := rfl

lemma stateClient_rpush : stateClient.rpush = rRPush := rfl

lemma stateClient_sadd : stateClient.sadd = rSAdd := rfl

lemma stateClient_hset : stateClient.hset = rHSet := rfl

lemma stateClient_zadd : stateClient.zadd = rZAdd := rfl

lemma stateClient_expire : stateClient.expire = rExpire := rfl

lemma stateClient_rr : stateClient.restoreReplace = rRestoreReplace := rfl

lemma rSet_spec (s : RState) (k v : String) (t : Int) :
    rSet s k v t = (none, updState s k (setE v t (s k))) := by
  simp [rSet, setE]

lemma rExpire_state (s : RState) (k : String) (t : Int) :
    (rExpire s k t).2 = updState s k (expireE t (s k)) ∧
    (rExpire s k t).1 = none := by
  cases hsk : s k with
  | none =>
    constructor
    · simp only [rExpire, hsk, expireE]
      rw [← hsk, updState_id]
    · simp [rExpire, hsk]
  | some en =>
    by_cases ht : t > 0 <;> simp [rExpire, hsk, expireE, ht]

lemma expireIfPositive_state (s : RState) (k : String) (t : Int) :
    (expireIfPositive stateClient s k t).state
      = updState s k (seqExpire t (true, s k)) ∧
    (expireIfPositive stateClient s k t).isOk = true := by
  unfold expireIfPositive seqExpire
  by_cases ht : t > 0
  · simp only [if_pos ht, stateClient_expire]
    constructor
    · simp only [Outcome.state, (rExpire_state s k t).1]
      simp [ht]
    · rfl
  · simp only [if_neg ht]
    refine ⟨?_, rfl⟩
    simp [Outcome.state, ht, updState_id]

lemma rpushAll_spec :
    ∀ (vs : List GoVal) (s : RState) (k : String),
      (rpushAll stateClient s k vs).state
        = updState s k (rpushAllE (s k) vs).2 ∧
      (rpushAll stateClient s k vs).isOk = (rpushAllE (s k) vs).1 ∧
      (rpushAll stateClient s k vs).noCrash = true := by
  intro vs
  induction vs with
  | nil =>
    intro s k
    refine ⟨?_, ?_, rfl⟩
    · simp only [rpushAll, rpushAllE, Outcome.state]
      rw [updState_id]
    · simp [rpushAll, rpushAllE, Outcome.isOk]
  | cons v rest ih =>
    intro s k
    cases hsk : s k with
    | none =>
      have hcall : stateClient.rpush s k v
          = (none, updState s k (some ⟨.rlist [v], none⟩)) := by
        rw [stateClient_rpush]
        simp [rRPush, hsk]
      simp only [rpushAll, hcall, hsk, rpushAllE]
      have hself : updState s k (some ⟨.rlist [v], none⟩) k
          = some ⟨.rlist [v], none⟩ := updState_self s k _
      have := ih (updState s k (some ⟨.rlist [v], none⟩)) k
      rw [hself] at this
      refine ⟨?_, this.2.1, this.2.2⟩
      rw [this.1, updState_collapse]
    | some en =>
      obtain ⟨ev, et⟩ := en
      cases ev with
      | rlist xs =>
        have hcall : stateClient.rpush s k v
            = (none, updState s k (some ⟨.rlist (xs ++ [v]), et⟩)) := by
          rw [stateClient_rpush]
          simp [rRPush, hsk]
        simp only [rpushAll, hcall, hsk, rpushAllE]
        have hself : updState s k (some ⟨.rlist (xs ++ [v]), et⟩) k
            = some ⟨.rlist (xs ++ [v]), et⟩ := updState_self s k _
        have := ih (updState s k (some ⟨.rlist (xs ++ [v]), et⟩)) k
        rw [hself] at this
        refine ⟨?_, this.2.1, this.2.2⟩
        rw [this.1, updState_collapse]
      | rstr a =>
        have hcall : stateClient.rpush s k v = (some "WRONGTYPE", s) := by
          rw [stateClient_rpush]; simp [rRPush, hsk]
        simp only [rpushAll, hcall, hsk, rpushAllE]
        refine ⟨?_, rfl, rfl⟩
        simp only [Outcome.state]
        rw [← hsk, updState_id]
      | rset a =>
        have hcall : stateClient.rpush s k v = (some "WRONGTYPE", s) := by
          rw [stateClient_rpush]; simp [rRPush, hsk]
        simp only [rpushAll, hcall, hsk, rpushAllE]
        refine ⟨?_, rfl, rfl⟩
        simp only [Outcome.state]
        rw [← hsk, updState_id]
      | rhash a =>
        have hcall : stateClient.rpush s k v = (some "WRONGTYPE", s) := by
          rw [stateClient_rpush]; simp [rRPush, hsk]
        simp only [rpushAll, hcall, hsk, rpushAllE]
        refine ⟨?_, rfl, rfl⟩
        simp only [Outcome.state]
        rw [← hsk, updState_id]
      | rzset a =>
        have hcall : stateClient.rpush s k v = (some "WRONGTYPE", s) := by
          rw [stateClient_rpush]; simp [rRPush, hsk]
        simp only [rpushAll, hcall, hsk, rpushAllE]
        refine ⟨?_, rfl, rfl⟩
        simp only [Outcome.state]
        rw [← hsk, updState_id]
      | rdump a =>
        have hcall : stateClient.rpush s k v = (some "WRONGTYPE", s) := by
          rw [stateClient_rpush]; simp [rRPush, hsk]
        simp only [rpushAll, hcall, hsk, rpushAllE]
        refine ⟨?_, rfl, rfl⟩
        simp only [Outcome.state]
        rw [← hsk, updState_id]

lemma saddAll_spec :
    ∀ (vs : List GoVal) (s : RState) (k : String),
      (saddAll stateClient s k vs).state
        = updState s k (saddAllE (s k) vs).2 ∧
      (saddAll stateClient s k vs).isOk = (saddAllE (s k) vs).1 ∧
      (saddAll stateClient s k vs).noCrash = true := by
  intro vs
  induction vs with
  | nil =>
    intro s k
    refine ⟨?_, ?_, rfl⟩
    · simp only [saddAll, saddAllE, Outcome.state]
      rw [updState_id]
    · simp [saddAll, saddAllE, Outcome.isOk]
  | cons v rest ih =>
    intro s k
    cases hsk : s k with
    | none =>
      have hcall : stateClient.sadd s k v
          = (none, updState s k (some ⟨.rset [v], none⟩)) := by
        rw [stateClient_sadd]
        simp [rSAdd, hsk]
      simp only [saddAll, hcall, hsk, saddAllE]
      have hself : updState s k (some ⟨.rset [v], none⟩) k
          = some ⟨.rset [v], none⟩ := updState_self s k _
      have := ih (updState s k (some ⟨.rset [v], none⟩)) k
      rw [hself] at this
      refine ⟨?_, this.2.1, this.2.2⟩
      rw [this.1, updState_collapse]
    | some en =>
      obtain ⟨ev, et⟩ := en
      cases ev with
      | rset xs =>
        have hcall : stateClient.sadd s k v
            = (none, updState s k (some ⟨.rset (saddElem xs v), et⟩)) := by
          rw [stateClient_sadd]
          simp [rSAdd, hsk]
        simp only [saddAll, hcall, hsk, saddAllE]
        have hself : updState s k (some ⟨.rset (saddElem xs v), et⟩) k
            = some ⟨.rset (saddElem xs v), et⟩ := updState_self s k _
        have := ih (updState s k (some ⟨.rset (saddElem xs v), et⟩)) k
        rw [hself] at this
        refine ⟨?_, this.2.1, this.2.2⟩
        rw [this.1, updState_collapse]
      | rstr a =>
        have hcall : stateClient.sadd s k v = (some "WRONGTYPE", s) := by
          rw [stateClient_sadd]; simp [rSAdd, hsk]
        simp only [saddAll, hcall, hsk, saddAllE]
        refine ⟨?_, rfl, rfl⟩
        simp only [Outcome.state]
        rw [← hsk, updState_id]
      | rlist a =>
        have hcall : stateClient.sadd s k v = (some "WRONGTYPE", s) := by
          rw [stateClient_sadd]; simp [rSAdd, hsk]
        simp only [saddAll, hcall, hsk, saddAllE]
        refine ⟨?_, rfl, rfl⟩
        simp only [Outcome.state]
        rw [← hsk, updState_id]
      | rhash a =>
        have hcall : stateClient.sadd s k v = (some "WRONGTYPE", s) := by
          rw [stateClient_sadd]; simp [rSAdd, hsk]
        simp only [saddAll, hcall, hsk, saddAllE]
        refine ⟨?_, rfl, rfl⟩
        simp only [Outcome.state]
        rw [← hsk, updState_id]
      | rzset a =>
        have hcall : stateClient.sadd s k v = (some "WRONGTYPE", s) := by
          rw [stateClient_sadd]; simp [rSAdd, hsk]
        simp only [saddAll, hcall, hsk, saddAllE]
        refine ⟨?_, rfl, rfl⟩
        simp only [Outcome.state]
        rw [← hsk, updState_id]
      | rdump a =>
        have hcall : stateClient.sadd s k v = (some "WRONGTYPE", s) := by
          rw [stateClient_sadd]; simp [rSAdd, hsk]
        simp only [saddAll, hcall, hsk, saddAllE]
        refine ⟨?_, rfl, rfl⟩
        simp only [Outcome.state]
        rw [← hsk, updState_id]

lemma rHSet_spec (s : RState) (k : String) (fs : List (String × GoVal)) :
    (rHSet s k fs).2 = updState s k (hsetE (s k) fs).2 ∧
    ((rHSet s k fs).1 = none ↔ (hsetE (s k) fs).1 = true) := by
  by_cases hfs : fs.isEmpty
  · constructor
    · simp only [rHSet, hsetE, if_pos hfs]
      rw [updState_id]
    · simp [rHSet, hsetE, hfs]
  · cases hsk : s k with
    | none =>
      constructor
      · simp only [rHSet, hsetE, if_neg hfs, hsk]
      · simp [rHSet, hsetE, hfs, hsk]
    | some en =>
      obtain ⟨ev, et⟩ := en
      cases ev with
      | rhash m =>
        constructor
        · simp only [rHSet, hsetE, if_neg hfs, hsk]
        · simp [rHSet, hsetE, hfs, hsk]
      | rstr a =>
        refine ⟨?_, by simp [rHSet, hsetE, hfs, hsk]⟩
        simp only [rHSet, hsetE, if_neg hfs, hsk]
        rw [← hsk, updState_id]
      | rlist a =>
        refine ⟨?_, by simp [rHSet, hsetE, hfs, hsk]⟩
        simp only [rHSet, hsetE, if_neg hfs, hsk]
        rw [← hsk, updState_id]
      | rset a =>
        refine ⟨?_, by simp [rHSet, hsetE, hfs, hsk]⟩
        simp only [rHSet, hsetE, if_neg hfs, hsk]
        rw [← hsk, updState_id]
      | rzset a =>
        refine ⟨?_, by simp [rHSet, hsetE, hfs, hsk]⟩
        simp only [rHSet, hsetE, if_neg hfs, hsk]
        rw [← hsk, updState_id]
      | rdump a =>
        refine ⟨?_, by simp [rHSet, hsetE, hfs, hsk]⟩
        simp only [rHSet, hsetE, if_neg hfs, hsk]
        rw [← hsk, updState_id]

lemma rZAdd_spec (s : RState) (k : String) (ms : List ZMember) :
    (rZAdd s k ms).2 = updState s k (zaddE (s k) ms).2 ∧
    ((rZAdd s k ms).1 = none ↔ (zaddE (s k) ms).1 = true) := by
  by_cases hms : ms.isEmpty
  · constructor
    · simp only [rZAdd, zaddE, if_pos hms]
      rw [updState_id]
    · simp [rZAdd, zaddE, hms]
  · cases hsk : s k with
    | none =>
      constructor
      · simp only [rZAdd, zaddE, if_neg hms, hsk]
      · simp [rZAdd, zaddE, hms, hsk]
    | some en =>
      obtain ⟨ev, et⟩ := en
      cases ev with
      | rzset m =>
        constructor
        · simp only [rZAdd, zaddE, if_neg hms, hsk]
        · simp [rZAdd, zaddE, hms, hsk]
      | rstr a =>
        refine ⟨?_, by simp [rZAdd, zaddE, hms, hsk]⟩
        simp only [rZAdd, zaddE, if_neg hms, hsk]
        rw [← hsk, updState_id]
      | rlist a =>
        refine ⟨?_, by simp [rZAdd, zaddE, hms, hsk]⟩
        simp only [rZAdd, zaddE, if_neg hms, hsk]
        rw [← hsk, updState_id]
      | rset a =>
        refine ⟨?_, by simp [rZAdd, zaddE, hms, hsk]⟩
        simp only [rZAdd, zaddE, if_neg hms, hsk]
        rw [← hsk, updState_id]
      | rhash a =>
        refine ⟨?_, by simp [rZAdd, zaddE, hms, hsk]⟩
        simp only [rZAdd, zaddE, if_neg hms, hsk]
        rw [← hsk, updState_id]
      | rdump a =>
        refine ⟨?_, by simp [rZAdd, zaddE, hms, hsk]⟩
        simp only [rZAdd, zaddE, if_neg hms, hsk]
        rw [← hsk, updState_id]

lemma asArr_eq_some (x : Option GoVal) (vals : List GoVal)
    (h : asArr x = some vals) : x = some (.varr vals) := by
  cases x with
  | none => cases h
  | some v =>
    cases v with
    | varr xs => simp only [asArr, Option.some.injEq] at h; rw [h]
    | vnull => cases h
    | vstr a => cases h
    | vfloat a => cases h
    | vmap a => cases h

lemma noCrash_of_isOk (o : Outcome σ) (h : o.isOk = true) :
    o.noCrash = true := by
  cases o <;> simp_all [Outcome.isOk, Outcome.noCrash]

lemma importValueByType_spec (kd : KeyData) (u : Bool)
    (hd : usesDumpPath kd u = false) (s : RState) :
    (importValueByType stateClient s kd).state
      = updState s kd.key (snapEffect kd u (s kd.key)) ∧
    (goodSnap u kd = true →
      (importValueByType stateClient s kd).noCrash = true) := by
  have hgood : goodSnap u kd = true →
      (match kd.type, kd.value with
       | "list", some (.varr vals) => vals.isEmpty
       | "zset", some (.varr vals) =>
         match buildZ vals with
         | .ok ms => decide ((ms.map ZMember.member).Nodup)
         | .error _ => false
       | "hash", some (.vmap m) => decide ((m.map Prod.fst).Nodup)
       | _, _ => true) = true := by
    intro hg
    unfold goodSnap at hg
    rw [hd] at hg
    simpa using hg
  unfold importValueByType snapEffect
  rw [hd]
  simp only [Bool.false_eq_true, if_false]
  split
  · -- string
    cases hv : asString kd.value with
    | none =>
      refine ⟨?_, fun _ => rfl⟩
      simp only [hv, Outcome.state]
      rw [updState_id]
    | some v =>
      simp only [hv, stateClient_set, rSet_spec]
      exact ⟨rfl, fun _ => rfl⟩
  · -- list
    cases hv : asArr kd.value with
    | none =>
      refine ⟨?_, fun _ => rfl⟩
      simp only [hv, Outcome.state]
      rw [updState_id]
    | some vals =>
      simp only [hv]
      obtain ⟨b, e2, hE⟩ : ∃ b e2, rpushAllE (s kd.key) vals = (b, e2) :=
        ⟨_, _, rfl⟩
      rw [hE]
      have hloop := rpushAll_spec vals s kd.key
      rw [hE] at hloop
      cases hres : rpushAll stateClient s kd.key vals with
      | ok s2 =>
        rw [hres] at hloop
        have hb : b = true := hloop.2.1.symm
        subst hb
        have hs2 : s2 = updState s kd.key e2 := hloop.1
        dsimp only
        constructor
        · rw [(expireIfPositive_state s2 kd.key kd.ttl).1, hs2,
            updState_self, updState_collapse]
        · intro _
          exact noCrash_of_isOk _ (expireIfPositive_state s2 kd.key kd.ttl).2
      | err m s2 =>
        rw [hres] at hloop
        have hb : b = false := hloop.2.1.symm
        subst hb
        have hs2 : s2 = updState s kd.key e2 := hloop.1
        dsimp only
        refine ⟨?_, fun _ => rfl⟩
        simp only [Outcome.state, seqExpire, Bool.false_eq_true, false_and,
          if_false]
        exact hs2
      | crash m s2 =>
        rw [hres] at hloop
        cases hloop.2.2
  · -- set
    cases hv : asArr kd.value with
    | none =>
      refine ⟨?_, fun _ => rfl⟩
      simp only [hv, Outcome.state]
      rw [updState_id]
    | some vals =>
      simp only [hv]
      obtain ⟨b, e2, hE⟩ : ∃ b e2, saddAllE (s kd.key) vals = (b, e2) :=
        ⟨_, _, rfl⟩
      rw [hE]
      have hloop := saddAll_spec vals s kd.key
      rw [hE] at hloop
      cases hres : saddAll stateClient s kd.key vals with
      | ok s2 =>
        rw [hres] at hloop
        have hb : b = true := hloop.2.1.symm
        subst hb
        have hs2 : s2 = updState s kd.key e2 := hloop.1
        dsimp only
        constructor
        · rw [(expireIfPositive_state s2 kd.key kd.ttl).1, hs2,
            updState_self, updState_collapse]
        · intro _
          exact noCrash_of_isOk _ (expireIfPositive_state s2 kd.key kd.ttl).2
      | err m s2 =>
        rw [hres] at hloop
        have hb : b = false := hloop.2.1.symm
        subst hb
        have hs2 : s2 = updState s kd.key e2 := hloop.1
        dsimp only
        refine ⟨?_, fun _ => rfl⟩
        simp only [Outcome.state, seqExpire, Bool.false_eq_true, false_and,
          if_false]
        exact hs2
      | crash m s2 =>
        rw [hres] at hloop
        cases hloop.2.2
  · -- hash
    cases hv : asMap kd.value with
    | none =>
      refine ⟨?_, fun _ => rfl⟩
      simp only [hv, Outcome.state]
      rw [updState_id]
    | some fs =>
      simp only [hv, stateClient_hset]
      obtain ⟨b, e2, hE⟩ : ∃ b e2, hsetE (s kd.key) fs = (b, e2) :=
        ⟨_, _, rfl⟩
      rw [hE]
      have hspec := rHSet_spec s kd.key fs
      rw [hE] at hspec
      cases hres : rHSet s kd.key fs with
      | mk e1 s2 =>
        rw [hres] at hspec
        have hs2 : s2 = updState s kd.key e2 := hspec.1
        cases e1 with
        | none =>
          have hb : b = true := hspec.2.mp rfl
          subst hb
          dsimp only
          constructor
          · rw [(expireIfPositive_state s2 kd.key kd.ttl).1, hs2,
              updState_self, updState_collapse]
          · intro _
            exact noCrash_of_isOk _ (expireIfPositive_state s2 kd.key kd.ttl).2
        | some msg =>
          have hb : b = false := by
            cases hbb : b
            · rfl
            · rw [hbb] at hspec
              exact absurd (hspec.2.mpr rfl) (by simp)
          subst hb
          dsimp only
          refine ⟨?_, fun _ => rfl⟩
          simp only [Outcome.state, seqExpire, Bool.false_eq_true, false_and,
            if_false]
          exact hs2
  · -- zset
    rename_i heq
    cases hv : asArr kd.value with
    | none =>
      refine ⟨?_, fun _ => rfl⟩
      simp only [hv, Outcome.state]
      rw [updState_id]
    | some vals =>
      simp only [hv]
      have hval : kd.value = some (.varr vals) := asArr_eq_some kd.value vals hv
      cases hbz : buildZ vals with
      | error m =>
        dsimp only
        refine ⟨?_, fun hg => ?_⟩
        · simp only [Outcome.state]
          rw [updState_id]
        · have hfls := hgood hg
          rw [heq, hval] at hfls
          simp [hbz] at hfls
      | ok ms =>
        dsimp only [stateClient_zadd]
        obtain ⟨b, e2, hE⟩ : ∃ b e2, zaddE (s kd.key) ms = (b, e2) :=
          ⟨_, _, rfl⟩
        rw [hE]
        have hspec := rZAdd_spec s kd.key ms
        rw [hE] at hspec
        cases hres : rZAdd s kd.key ms with
        | mk e1 s2 =>
          rw [hres] at hspec
          have hs2 : s2 = updState s kd.key e2 := hspec.1
          cases e1 with
          | none =>
            have hb : b = true := hspec.2.mp rfl
            subst hb
            dsimp only
            constructor
            · rw [(expireIfPositive_state s2 kd.key kd.ttl).1, hs2,
                updState_self, updState_collapse]
            · intro _
              exact noCrash_of_isOk _
                (expireIfPositive_state s2 kd.key kd.ttl).2
          | some msg =>
            have hb : b = false := by
              cases hbb : b
              · rfl
              · rw [hbb] at hspec
                exact absurd (hspec.2.mpr rfl) (by simp)
            subst hb
            dsimp only
            refine ⟨?_, fun _ => rfl⟩
            simp only [Outcome.state, seqExpire, Bool.false_eq_true,
              false_and, if_false]
            exact hs2
  · -- default
    refine ⟨?_, fun _ => rfl⟩
    simp only [Outcome.state]
    rw [updState_id]

lemma importKey_state (kd : KeyData) (u : Bool) (s : RState) :
    (importKey stateClient s kd u).state
      = updState s kd.key (snapEffect kd u (s kd.key)) := by
  by_cases hd : usesDumpPath kd u = true
  · unfold importKey
    rw [hd, if_pos rfl]
    unfold snapEffect
    rw [hd, if_pos rfl]
    simp only [stateClient_rr]
    have harg : (if (if kd.ttl < 0 then (0 : Int) else kd.ttl) > 0
          then some (if kd.ttl < 0 then (0 : Int) else kd.ttl) else none)
        = (if kd.ttl > 0 then some kd.ttl else none) := by
      by_cases h1 : kd.ttl > 0
      · have hin : (if kd.ttl < 0 then (0 : Int) else kd.ttl) = kd.ttl :=
          if_neg (by omega)
        rw [hin, if_pos h1]
      · by_cases h2 : kd.ttl < 0
        · have hin : (if kd.ttl < 0 then (0 : Int) else kd.ttl) = 0 :=
            if_pos h2
          rw [hin, if_neg (by omega), if_neg h1]
        · have hin : (if kd.ttl < 0 then (0 : Int) else kd.ttl) = kd.ttl :=
            if_neg h2
          rw [hin, if_neg h1]
    unfold rRestoreReplace
    rw [if_neg (by split <;> omega)]
    simp only [Outcome.state]
    rw [harg]
  · have hd' : usesDumpPath kd u = false := by simpa using hd
    unfold importKey
    rw [hd']
    simp only [Bool.false_eq_true, if_false]
    exact (importValueByType_spec kd u hd' s).1

lemma importKey_noCrash (kd : KeyData) (u : Bool) (s : RState)
    (hg : goodSnap u kd = true) :
    (importKey stateClient s kd u).noCrash = true := by
  by_cases hd : usesDumpPath kd u = true
  · unfold importKey
    rw [hd, if_pos rfl]
    simp only [stateClient_rr]
    unfold rRestoreReplace
    rw [if_neg (by split <;> omega)]
    rfl
  · have hd' : usesDumpPath kd u = false := by simpa using hd
    unfold importKey
    rw [hd']
    simp only [Bool.false_eq_true, if_false]
    exact (importValueByType_spec kd u hd' s).2 hg

lemma expireE_idem (t : Int) (e : Option Entry) :
    expireE t (expireE t e) = expireE t e := by
  cases e with
  | none => rfl
  | some en => by_cases ht : t > 0 <;> simp [expireE, ht]

lemma setE_idem (v : String) (t : Int) (e : Option Entry) :
    setE v t (setE v t e) = setE v t e := by
  unfold setE
  by_cases h1 : t > 0
  · simp [h1]
  · by_cases h2 : t = -1
    · simp [h1, h2, Entry.ttl]
    · simp [h1, h2]

lemma saddAllE_nil (e : Option Entry) : saddAllE e [] = (true, e) := by
  cases e <;> rfl

lemma rpushAllE_nil (e : Option Entry) : rpushAllE e [] = (true, e) := by
  cases e <;> rfl

lemma saddAllE_rset (vs : List GoVal) :
    ∀ (xs : List GoVal) (t0 : Option Int),
      saddAllE (some ⟨.rset xs, t0⟩) vs
        = (true, some ⟨.rset (vs.foldl saddElem xs), t0⟩) := by
  induction vs with
  | nil => intro xs t0; rfl
  | cons v rest ih =>
    intro xs t0
    simp only [saddAllE]
    rw [ih]
    simp

lemma saddAllE_none_cons (v : GoVal) (vs : List GoVal) :
    saddAllE none (v :: vs)
      = (true, some ⟨.rset ((v :: vs).foldl saddElem []), none⟩) := by
  simp only [saddAllE]
  rw [saddAllE_rset]
  simp [saddElem]

lemma seqExpire_true (t : Int) (e : Option Entry) :
    seqExpire t (true, e) = if t > 0 then expireE t e else e := by
  simp [seqExpire]

lemma seqExpire_false (t : Int) (e : Option Entry) :
    seqExpire t (false, e) = e := by
  simp [seqExpire]

lemma seqExpire_true_entry (t : Int) (v : RVal) (t0 : Option Int) :
    ∃ t1, seqExpire t (true, some ⟨v, t0⟩) = some ⟨v, t1⟩ ∧
      (t > 0 → t1 = some t) ∧ (¬t > 0 → t1 = t0) := by
  by_cases ht : t > 0
  · exact ⟨some t, by simp [seqExpire_true, ht, expireE], fun _ => rfl,
      fun hc => absurd ht hc⟩
  · exact ⟨t0, by simp [seqExpire_true, ht], fun hc => absurd hc ht,
      fun _ => rfl⟩

lemma seqExpire_true_idem (t : Int) (v : RVal) (t0 : Option Int) :
    seqExpire t (true, seqExpire t (true, some ⟨v, t0⟩))
      = seqExpire t (true, some ⟨v, t0⟩) := by
  obtain ⟨t1, h1, hpos, hneg⟩ := seqExpire_true_entry t v t0
  rw [h1]
  obtain ⟨t2, h2, hpos2, hneg2⟩ := seqExpire_true_entry t v t1
  rw [h2]
  by_cases ht : t > 0
  · rw [hpos2 ht, hpos ht]
  · rw [hneg2 ht]

lemma seqSadd_idem (t : Int) (vals : List GoVal) (e : Option Entry) :
    seqExpire t (saddAllE (seqExpire t (saddAllE e vals)) vals)
      = seqExpire t (saddAllE e vals) := by
  have hrset : ∀ (X : List GoVal) (T : Option Int),
      (∀ w ∈ vals, w ∈ X) →
      seqExpire t (saddAllE (seqExpire t (true, some ⟨.rset X, T⟩)) vals)
        = seqExpire t (true, some ⟨.rset X, T⟩) := by
    intro X T habs
    obtain ⟨t1, h1, hpos, hneg⟩ := seqExpire_true_entry t (.rset X) T
    rw [h1, saddAllE_rset, saddFold_absorb vals X habs, seqExpire_true]
    by_cases ht : t > 0
    · rw [if_pos ht, hpos ht]
      simp [expireE, ht]
    · rw [if_neg ht]
  cases e with
  | none =>
    cases vals with
    | nil =>
      have h1 : seqExpire t (saddAllE (none : Option Entry) []) = none := by
        rw [saddAllE_nil, seqExpire_true]
        by_cases ht : t > 0 <;> simp [expireE, ht]
      rw [h1, h1]
    | cons v vs =>
      rw [saddAllE_none_cons]
      exact hrset _ none (fun w hw => mem_saddFold_of_mem (v :: vs) [] w hw)
  | some en =>
    obtain ⟨ev, t0⟩ := en
    cases ev with
    | rset xs =>
      rw [saddAllE_rset]
      exact hrset _ t0 (fun w hw => mem_saddFold_of_mem vals xs w hw)
    | rstr a =>
      cases vals with
      | nil =>
        rw [saddAllE_nil, saddAllE_nil]
        exact seqExpire_true_idem t (.rstr a) t0
      | cons v vs =>
        have hcall : saddAllE (some ⟨RVal.rstr a, t0⟩) (v :: vs)
            = (false, some ⟨RVal.rstr a, t0⟩) := rfl
        rw [hcall, seqExpire_false, hcall, seqExpire_false]
    | rlist a =>
      cases vals with
      | nil =>
        rw [saddAllE_nil, saddAllE_nil]
        exact seqExpire_true_idem t (.rlist a) t0
      | cons v vs =>
        have hcall : saddAllE (some ⟨RVal.rlist a, t0⟩) (v :: vs)
            = (false, some ⟨RVal.rlist a, t0⟩) := rfl
        rw [hcall, seqExpire_false, hcall, seqExpire_false]
    | rhash a =>
      cases vals with
      | nil =>
        rw [saddAllE_nil, saddAllE_nil]
        exact seqExpire_true_idem t (.rhash a) t0
      | cons v vs =>
        have hcall : saddAllE (some ⟨RVal.rhash a, t0⟩) (v :: vs)
            = (false, some ⟨RVal.rhash a, t0⟩) := rfl
        rw [hcall, seqExpire_false, hcall, seqExpire_false]
    | rzset a =>
      cases vals with
      | nil =>
        rw [saddAllE_nil, saddAllE_nil]
        exact seqExpire_true_idem t (.rzset a) t0
      | cons v vs =>
        have hcall : saddAllE (some ⟨RVal.rzset a, t0⟩) (v :: vs)
            = (false, some ⟨RVal.rzset a, t0⟩) := rfl
        rw [hcall, seqExpire_false, hcall, seqExpire_false]
    | rdump a =>
      cases vals with
      | nil =>
        rw [saddAllE_nil, saddAllE_nil]
        exact seqExpire_true_idem t (.rdump a) t0
      | cons v vs =>
        have hcall : saddAllE (some ⟨RVal.rdump a, t0⟩) (v :: vs)
            = (false, some ⟨RVal.rdump a, t0⟩) := rfl
        rw [hcall, seqExpire_false, hcall, seqExpire_false]

lemma seqRpushNil_idem (t : Int) (e : Option Entry) :
    seqExpire t (rpushAllE (seqExpire t (rpushAllE e [])) [])
      = seqExpire t (rpushAllE e []) := by
  rw [rpushAllE_nil, rpushAllE_nil]
  cases e with
  | none =>
    have h1 : seqExpire t (true, (none : Option Entry)) = none := by
      rw [seqExpire_true]
      by_cases ht : t > 0 <;> simp [expireE, ht]
    rw [h1, h1]
  | some en =>
    obtain ⟨ev, t0⟩ := en
    exact seqExpire_true_idem t ev t0

lemma seqHset_idem (t : Int) (fs : List (String × GoVal))
    (hnd : (fs.map Prod.fst).Nodup) (e : Option Entry) :
    seqExpire t (hsetE (seqExpire t (hsetE e fs)) fs)
      = seqExpire t (hsetE e fs) := by
  by_cases hfs : fs.isEmpty
  · have hcall : ∀ e' : Option Entry, hsetE e' fs = (false, e') := by
      intro e'; simp [hsetE, hfs]
    rw [hcall, seqExpire_false, hcall, seqExpire_false]
  · cases e with
    | none =>
      have h1 : hsetE none fs
          = (true, some ⟨.rhash (upsertAll [] fs), none⟩) := by
        simp [hsetE, hfs]
      rw [h1]
      obtain ⟨t1, hE1, hpos, hneg⟩ :=
        seqExpire_true_entry t (.rhash (upsertAll [] fs)) none
      rw [hE1]
      have h2 : hsetE (some ⟨.rhash (upsertAll [] fs), t1⟩) fs
          = (true, some ⟨.rhash (upsertAll (upsertAll [] fs) fs), t1⟩) := by
        simp [hsetE, hfs]
      rw [h2, upsertAll_idem fs hnd]
      obtain ⟨t2, hE2, hpos2, hneg2⟩ :=
        seqExpire_true_entry t (.rhash (upsertAll [] fs)) t1
      rw [hE2]
      by_cases ht : t > 0
      · rw [hpos2 ht, hpos ht]
      · rw [hneg2 ht]
    | some en =>
      obtain ⟨ev, t0⟩ := en
      cases ev with
      | rhash m =>
        have h1 : hsetE (some ⟨.rhash m, t0⟩) fs
            = (true, some ⟨.rhash (upsertAll m fs), t0⟩) := by
          simp [hsetE, hfs]
        rw [h1]
        obtain ⟨t1, hE1, hpos, hneg⟩ :=
          seqExpire_true_entry t (.rhash (upsertAll m fs)) t0
        rw [hE1]
        have h2 : hsetE (some ⟨.rhash (upsertAll m fs), t1⟩) fs
            = (true, some ⟨.rhash (upsertAll (upsertAll m fs) fs), t1⟩) := by
          simp [hsetE, hfs]
        rw [h2, upsertAll_idem fs hnd]
        obtain ⟨t2, hE2, hpos2, hneg2⟩ :=
          seqExpire_true_entry t (.rhash (upsertAll m fs)) t1
        rw [hE2]
        by_cases ht : t > 0
        · rw [hpos2 ht, hpos ht]
        · rw [hneg2 ht]
      | rstr a =>
        have hcall : hsetE (some ⟨RVal.rstr a, t0⟩) fs
            = (false, some ⟨RVal.rstr a, t0⟩) := by simp [hsetE, hfs]
        rw [hcall, seqExpire_false, hcall, seqExpire_false]
      | rlist a =>
        have hcall : hsetE (some ⟨RVal.rlist a, t0⟩) fs
            = (false, some ⟨RVal.rlist a, t0⟩) := by simp [hsetE, hfs]
        rw [hcall, seqExpire_false, hcall, seqExpire_false]
      | rset a =>
        have hcall : hsetE (some ⟨RVal.rset a, t0⟩) fs
            = (false, some ⟨RVal.rset a, t0⟩) := by simp [hsetE, hfs]
        rw [hcall, seqExpire_false, hcall, seqExpire_false]
      | rzset a =>
        have hcall : hsetE (some ⟨RVal.rzset a, t0⟩) fs
            = (false, some ⟨RVal.rzset a, t0⟩) := by simp [hsetE, hfs]
        rw [hcall, seqExpire_false, hcall, seqExpire_false]
      | rdump a =>
        have hcall : hsetE (some ⟨RVal.rdump a, t0⟩) fs
            = (false, some ⟨RVal.rdump a, t0⟩) := by simp [hsetE, hfs]
        rw [hcall, seqExpire_false, hcall, seqExpire_false]

lemma zaddList_idem (ms : List ZMember)
    (hnd : (ms.map ZMember.member).Nodup) (m : List (GoVal × Int)) :
    zaddList (zaddList m ms) ms = zaddList m ms := by
  unfold zaddList
  apply upsertAll_idem
  rw [List.map_map]
  simpa [Function.comp] using hnd

lemma seqZadd_idem (t : Int) (ms : List ZMember)
    (hnd : (ms.map ZMember.member).Nodup) (e : Option Entry) :
    seqExpire t (zaddE (seqExpire t (zaddE e ms)) ms)
      = seqExpire t (zaddE e ms) := by
  by_cases hms : ms.isEmpty
  · have hcall : ∀ e' : Option Entry, zaddE e' ms = (false, e') := by
      intro e'; simp [zaddE, hms]
    rw [hcall, seqExpire_false, hcall, seqExpire_false]
  · cases e with
    | none =>
      have h1 : zaddE none ms
          = (true, some ⟨.rzset (zaddList [] ms), none⟩) := by
        simp [zaddE, hms]
      rw [h1]
      obtain ⟨t1, hE1, hpos, hneg⟩ :=
        seqExpire_true_entry t (.rzset (zaddList [] ms)) none
      rw [hE1]
      have h2 : zaddE (some ⟨.rzset (zaddList [] ms), t1⟩) ms
          = (true, some ⟨.rzset (zaddList (zaddList [] ms) ms), t1⟩) := by
        simp [zaddE, hms]
      rw [h2, zaddList_idem ms hnd]
      obtain ⟨t2, hE2, hpos2, hneg2⟩ :=
        seqExpire_true_entry t (.rzset (zaddList [] ms)) t1
      rw [hE2]
      by_cases ht : t > 0
      · rw [hpos2 ht, hpos ht]
      · rw [hneg2 ht]
    | some en =>
      obtain ⟨ev, t0⟩ := en
      cases ev with
      | rzset m =>
        have h1 : zaddE (some ⟨.rzset m, t0⟩) ms
            = (true, some ⟨.rzset (zaddList m ms), t0⟩) := by
          simp [zaddE, hms]
        rw [h1]
        obtain ⟨t1, hE1, hpos, hneg⟩ :=
          seqExpire_true_entry t (.rzset (zaddList m ms)) t0
        rw [hE1]
        have h2 : zaddE (some ⟨.rzset (zaddList m ms), t1⟩) ms
            = (true, some ⟨.rzset (zaddList (zaddList m ms) ms), t1⟩) := by
          simp [zaddE, hms]
        rw [h2, zaddList_idem ms hnd]
        obtain ⟨t2, hE2, hpos2, hneg2⟩ :=
          seqExpire_true_entry t (.rzset (zaddList m ms)) t1
        rw [hE2]
        by_cases ht : t > 0
        · rw [hpos2 ht, hpos ht]
        · rw [hneg2 ht]
      | rstr a =>
        have hcall : zaddE (some ⟨RVal.rstr a, t0⟩) ms
            = (false, some ⟨RVal.rstr a, t0⟩) := by simp [zaddE, hms]
        rw [hcall, seqExpire_false, hcall, seqExpire_false]
      | rlist a =>
        have hcall : zaddE (some ⟨RVal.rlist a, t0⟩) ms
            = (false, some ⟨RVal.rlist a, t0⟩) := by simp [zaddE, hms]
        rw [hcall, seqExpire_false, hcall, seqExpire_false]
      | rset a =>
        have hcall : zaddE (some ⟨RVal.rset a, t0⟩) ms
            = (false, some ⟨RVal.rset a, t0⟩) := by simp [zaddE, hms]
        rw [hcall, seqExpire_false, hcall, seqExpire_false]
      | rhash a =>
        have hcall : zaddE (some ⟨RVal.rhash a, t0⟩) ms
            = (false, some ⟨RVal.rhash a, t0⟩) := by simp [zaddE, hms]
        rw [hcall, seqExpire_false, hcall, seqExpire_false]
      | rdump a =>
        have hcall : zaddE (some ⟨RVal.rdump a, t0⟩) ms
            = (false, some ⟨RVal.rdump a, t0⟩) := by simp [zaddE, hms]
        rw [hcall, seqExpire_false, hcall, seqExpire_false]

lemma asMap_eq_some (x : Option GoVal) (m : List (String × GoVal))
    (h : asMap x = some m) : x = some (.vmap m) := by
  cases x with
  | none => cases h
  | some v =>
    cases v with
    | vmap mm => simp only [asMap, Option.some.injEq] at h; rw [h]
    | vnull => cases h
    | vstr a => cases h
    | vfloat a => cases h
    | varr a => cases h

lemma snapEffect_idem (kd : KeyData) (u : Bool) (hg : goodSnap u kd = true)
    (e : Option Entry) :
    snapEffect kd u (snapEffect kd u e) = snapEffect kd u e := by
  by_cases hd : usesDumpPath kd u = true
  · unfold snapEffect
    rw [hd]
    simp
  · have hd' : usesDumpPath kd u = false := by simpa using hd
    have hgood : (match kd.type, kd.value with
       | "list", some (.varr vals) => vals.isEmpty
       | "zset", some (.varr vals) =>
         match buildZ vals with
         | .ok ms => decide ((ms.map ZMember.member).Nodup)
         | .error _ => false
       | "hash", some (.vmap m) => decide ((m.map Prod.fst).Nodup)
       | _, _ => true) = true := by
      unfold goodSnap at hg
      rw [hd'] at hg
      simpa using hg
    unfold snapEffect
    rw [hd']
    simp only [Bool.false_eq_true, if_false]
    split
    · -- string
      cases hv : asString kd.value with
      | none => rfl
      | some v =>
        simp only [hv]
        exact setE_idem v kd.ttl e
    · -- list
      rename_i heq
      cases hv : asArr kd.value with
      | none => rfl
      | some vals =>
        simp only [hv]
        have hval : kd.value = some (.varr vals) :=
          asArr_eq_some kd.value vals hv
        rw [heq, hval] at hgood
        have hnil : vals = [] := by simpa using hgood
        subst hnil
        exact seqRpushNil_idem kd.ttl e
    · -- set
      cases hv : asArr kd.value with
      | none => rfl
      | some vals =>
        simp only [hv]
        exact seqSadd_idem kd.ttl vals e
    · -- hash
      rename_i heq
      cases hv : asMap kd.value with
      | none => rfl
      | some fs =>
        simp only [hv]
        have hval : kd.value = some (.vmap fs) :=
          asMap_eq_some kd.value fs hv
        rw [heq, hval] at hgood
        have hnd : (fs.map Prod.fst).Nodup := by simpa using hgood
        exact seqHset_idem kd.ttl fs hnd e
    · -- zset
      rename_i heq
      cases hv : asArr kd.value with
      | none => rfl
      | some vals =>
        simp only [hv]
        have hval : kd.value = some (.varr vals) :=
          asArr_eq_some kd.value vals hv
        rw [heq, hval] at hgood
        cases hbz : buildZ vals with
        | error m => simp only [hbz]
        | ok ms =>
          simp only [hbz]
          have hnd : (ms.map ZMember.member).Nodup := by
            simpa [hbz] using hgood
          exact seqZadd_idem kd.ttl ms hnd e
    · -- default
      split <;> simp_all

lemma step_eq (kd : KeyData) (u : Bool) (s : RState) :
    step kd u s = updState s kd.key (snapEffect kd u (s kd.key)) :=
  importKey_state kd u s

lemma step_idem (kd : KeyData) (u : Bool) (hg : goodSnap u kd = true)
    (s : RState) : step kd u (step kd u s) = step kd u s := by
  have h1 := step_eq kd u s
  rw [h1, step_eq, updState_self, updState_collapse,
    snapEffect_idem kd u hg]

lemma step_comm (kd1 kd2 : KeyData) (u : Bool) (hne : kd1.key ≠ kd2.key)
    (s : RState) :
    step kd1 u (step kd2 u s) = step kd2 u (step kd1 u s) := by
  rw [step_eq kd2 u s, step_eq kd1 u s, step_eq, step_eq,
    updState_other _ _ _ _ hne, updState_other _ _ _ _ (Ne.symm hne)]
  funext k'
  by_cases hk1 : k' = kd1.key
  · subst hk1
    rw [updState_self, updState_other _ _ _ _ hne, updState_self]
  · rw [updState_other _ _ _ _ hk1]
    by_cases hk2 : k' = kd2.key
    · subst hk2
      rw [updState_self, updState_self]
    · rw [updState_other _ _ _ _ hk2, updState_other _ _ _ _ hk2,
        updState_other _ _ _ _ hk1]

lemma foldSteps_cons (u : Bool) (d : KeyData) (rest : List KeyData)
    (s : RState) :
    foldSteps u (d :: rest) s = foldSteps u rest (step d u s) := rfl

lemma importKeys_fold (u : Bool) :
    ∀ (kds : List KeyData) (s : RState),
      (∀ kd ∈ kds, goodSnap u kd = true) →
      (importKeys stateClient s kds u).state = foldSteps u kds s ∧
      (importKeys stateClient s kds u).panicMsg = none := by
  intro kds
  induction kds with
  | nil => intro s _; exact ⟨rfl, rfl⟩
  | cons kd rest ih =>
    intro s hg
    have hnc := importKey_noCrash kd u s (hg kd (by simp))
    cases hres : importKey stateClient s kd u with
    | ok s2 =>
      have hstep : step kd u s = s2 := by
        simp [step, hres, Outcome.state]
      have ih' := ih s2 (fun d hd => hg d (by simp [hd]))
      simp only [importKeys, hres]
      rw [foldSteps_cons, hstep]
      exact ih'
    | err m s2 =>
      have hstep : step kd u s = s2 := by
        simp [step, hres, Outcome.state]
      have ih' := ih s2 (fun d hd => hg d (by simp [hd]))
      simp only [importKeys, hres]
      rw [foldSteps_cons, hstep]
      exact ih'
    | crash m s2 =>
      rw [hres] at hnc
      cases hnc

lemma step_foldSteps_comm (u : Bool) (kd : KeyData) :
    ∀ (kds : List KeyData) (s : RState),
      kd.key ∉ kds.map KeyData.key →
      step kd u (foldSteps u kds s) = foldSteps u kds (step kd u s) := by
  intro kds
  induction kds with
  | nil => intro s _; rfl
  | cons d rest ih =>
    intro s hk
    have hne : kd.key ≠ d.key := by
      intro hEq; exact hk (by simp [hEq])
    have hk2 : kd.key ∉ rest.map KeyData.key := by
      intro hEq; exact hk (by simp [hEq])
    rw [foldSteps_cons, ih (step d u s) hk2, step_comm kd d u hne s,
      ← foldSteps_cons]

lemma foldSteps_idem (u : Bool) :
    ∀ (kds : List KeyData) (s : RState),
      (kds.map KeyData.key).Nodup →
      (∀ kd ∈ kds, goodSnap u kd = true) →
      foldSteps u kds (foldSteps u kds s) = foldSteps u kds s := by
  intro kds
  induction kds with
  | nil => intro s _ _; rfl
  | cons d rest ih =>
    intro s hnd hg
    have hdk : d.key ∉ rest.map KeyData.key := by
      have := hnd
      simp only [List.map_cons, List.nodup_cons] at this
      exact this.1
    have hrnd : (rest.map KeyData.key).Nodup := by
      have := hnd
      simp only [List.map_cons, List.nodup_cons] at this
      exact this.2
    have hgd : goodSnap u d = true := hg d (by simp)
    have hgrest : ∀ kd ∈ rest, goodSnap u kd = true :=
      fun kd h => hg kd (by simp [h])
    rw [foldSteps_cons, foldSteps_cons,
      step_foldSteps_comm u d rest (step d u s) hdk,
      step_idem d u hgd s]
    exact ih (step d u s) hrnd hgrest

/-- C8 amended: importing the same snapshot list twice leaves the modelled
target in the same final state as importing it once, for every file whose
snapshots have pairwise-distinct keys and each either take the opaque
restore path or are decomposed snapshots that are not non-empty lists (and
are free of panics and duplicate hash fields / sorted-set members, as the
export path always produces).  Decomposed list restore uses appends, so
non-empty list snapshots violate idempotency — see the counterexample. -/
theorem claim8_import_idempotent :
    ∀ (u : Bool) (s : RState) (kds : List KeyData),
      (kds.map KeyData.key).Nodup →
      (∀ kd ∈ kds, goodSnap u kd = true) →
      (importKeys stateClient
          ((importKeys stateClient s kds u).state) kds u).state
        = (importKeys stateClient s kds u).state := by
  intro u s kds hnd hg
  rw [(importKeys_fold u kds s hg).1,
    (importKeys_fold u kds (foldSteps u kds s) hg).1]
  exact foldSteps_idem u kds s hnd hg

/-- Witness for C8's amended theorem: a concrete two-snapshot file (one
string, one set) imported twice into the empty target. -/
theorem claim8_witness :
    (importKeys stateClient
        ((importKeys stateClient emptyState
            [⟨"a", "string", 0, some (.vstr "x"), none⟩,
             ⟨"b", "set", 0, some (.varr [.vstr "m"]), none⟩] false).state)
        [⟨"a", "string", 0, some (.vstr "x"), none⟩,
         ⟨"b", "set", 0, some (.varr [.vstr "m"]), none⟩] false).state
      = (importKeys stateClient emptyState
          [⟨"a", "string", 0, some (.vstr "x"), none⟩,
           ⟨"b", "set", 0, some (.varr [.vstr "m"]), none⟩] false).state :=
  claim8_import_idempotent false emptyState
    [⟨"a", "string", 0, some (.vstr "x"), none⟩,
     ⟨"b", "set", 0, some (.varr [.vstr "m"]), none⟩]
    (by decide) (by decide)

/-- C8 counterexample: a decomposed list snapshot imported twice doubles the
list — after one import key `k` holds the one-element list, after two
imports the two-element list — so restore is not idempotent under the
decomposed strategy. -/
theorem claim8_counterexample :
    (importKeys stateClient emptyState
        [⟨"k", "list", 0, some (.varr [.vstr "a"]), none⟩] false).state "k"
      = some ⟨.rlist [.vstr "a"], none⟩ ∧
    (importKeys stateClient
        ((importKeys stateClient emptyState
            [⟨"k", "list", 0, some (.varr [.vstr "a"]), none⟩] false).state)
        [⟨"k", "list", 0, some (.varr [.vstr "a"]), none⟩] false).state "k"
      = some ⟨.rlist [.vstr "a", .vstr "a"], none⟩ ∧
    some (Entry.mk (.rlist [.vstr "a", .vstr "a"]) none)
      ≠ some (Entry.mk (.rlist [.vstr "a"]) none) := by
  refine ⟨by decide, by decide, by decide⟩

/-! ## Theorems -/

lemma loadOrStore_mem (m : List String) (k k' : String) :
    k' ∈ (loadOrStore m k).2 ↔ k' ∈ m ∨ k' = k := by
  unfold loadOrStore
  by_cases h : k ∈ m
  · simp only [if_pos h]
    constructor
    · exact fun hm => Or.inl hm
    · rintro (hm | rfl)
      · exact hm
      · exact h
  · simp [if_neg h, List.mem_append]

lemma loadOrStore_nodup (m : List String) (k : String) (hm : m.Nodup) :
    (loadOrStore m k).2.Nodup := by
  unfold loadOrStore
  by_cases h : k ∈ m
  · simpa [if_pos h] using hm
  · simp only [if_neg h]
    simpa [List.nodup_append] using ⟨hm, h⟩

lemma scanAux_nodup :
    ∀ (obs m : List String), m.Nodup →
      (obs.foldl (fun m k => (loadOrStore m k).2) m).Nodup := by
  intro obs
  induction obs with
  | nil => intro m hm; simpa using hm
  | cons k rest ih =>
    intro m hm
    simpa using ih _ (loadOrStore_nodup m k hm)

lemma scanAux_mem :
    ∀ (obs m : List String) (k' : String),
      k' ∈ obs.foldl (fun m k => (loadOrStore m k).2) m ↔
        k' ∈ m ∨ k' ∈ obs := by
  intro obs
  induction obs with
  | nil => intro m k'; simp
  | cons k rest ih =>
    intro m k'
    simp only [List.foldl_cons, ih, loadOrStore_mem, List.mem_cons]
    tauto

/-- C4: the Discovery Key Set reports "newly added" exactly on the first add
of a key; later adds of the same key report "already present" and leave the
set unchanged, so the unique key list the capture loop walks holds each
observed key exactly once no matter how often the node scans observed it. -/
theorem claim4_dedup_first_add :
    ∀ (m : List String) (k : String),
      ((loadOrStore m k).1 = false ↔ k ∉ m) ∧
      (k ∈ m → (loadOrStore m k).2 = m) ∧
      k ∈ (loadOrStore m k).2 ∧
      (loadOrStore ((loadOrStore m k).2) k).1 = true ∧
      (∀ obs : List String, (scanKeys obs).Nodup ∧
        ∀ k', (scanKeys obs).count k' ≤ 1 ∧ (k' ∈ scanKeys obs ↔ k' ∈ obs)) := by
  intro m k
  refine ⟨?_, ?_, ?_, ?_, ?_⟩
  · unfold loadOrStore
    by_cases h : k ∈ m <;> simp [h]
  · intro h; simp [loadOrStore, if_pos h]
  · rw [loadOrStore_mem]; exact Or.inr rfl
  · have hk : k ∈ (loadOrStore m k).2 := by
      rw [loadOrStore_mem]; exact Or.inr rfl
    generalize hE : (loadOrStore m k).2 = m2 at hk
    simp [loadOrStore, hk]
  · intro obs
    have hnd : (scanKeys obs).Nodup := scanAux_nodup obs [] (by simp)
    refine ⟨hnd, fun k' => ⟨?_, ?_⟩⟩
    · exact (List.nodup_iff_count_le_one.mp hnd) k'
    · simpa using scanAux_mem obs [] k'

/-- Witness for C4 at concrete inputs. -/
theorem claim4_witness :
    (loadOrStore ["k1"] "k1").2 = ["k1"] ∧
    (scanKeys ["k1", "k2", "k1"]).Nodup :=
  ⟨(claim4_dedup_first_add ["k1"] "k1").2.1 (by decide),
   ((claim4_dedup_first_add [] "x").2.2.2.2 ["k1", "k2", "k1"]).1⟩

/-- C1 amended: an export run whose discovery finds zero matching keys
returns without error, but creates no output file at all — the run stops
before the file-writing stage, so no zero-entry export file exists. -/
theorem claim1_empty_export :
    ∀ capture : String → Except String KeyData,
      exportKeys [] capture = .ok (none, 0, 0) := fun _ => rfl

/-- C1 counterexample: with zero discovered keys the export returns without
error and the output-file content is `none` (no file created), not the
well-formed zero-entry file `some []` the claim requires. -/
theorem claim1_counterexample :
    exportKeys [] (fun _ => .error "no capture") = .ok (none, 0, 0) ∧
    (none : Option (List KeyData)) ≠ some [] :=
  ⟨rfl, by simp⟩

lemma exportKey_ok_ttl (c : SourceClient) (key : String) (u : Bool)
    (kd : KeyData) (h : exportKey c key u = .ok kd) :
    c.ttl key = .ok kd.ttl := by
  unfold exportKey at h
  cases hT : c.ttl key with
  | error e => rw [hT] at h; cases h
  | ok t =>
    rw [hT] at h
    cases hTy : c.typeOf key with
    | error e => rw [hTy] at h; cases h
    | ok kt =>
      rw [hTy] at h
      cases u with
      | true =>
        simp only [if_pos] at h
        cases hD : c.dump key with
        | error e => rw [hD] at h; cases h
        | ok bs => rw [hD] at h; cases h; rfl
      | false =>
        simp only [Bool.false_eq_true, if_neg] at h
        cases hV : exportValueByType c key kt with
        | error e => rw [hV] at h; cases h
        | ok v => rw [hV] at h; cases h; rfl

lemma importKey_dump_ttl0 (σ : Type) (c : Client σ) (s : σ) (kd : KeyData)
    (bs : List Nat) (hd : kd.dump = some bs) (hne : bs ≠ [])
    (ht : kd.ttl ≤ 0) :
    importKey c s kd true = callOutcome (c.restoreReplace s kd.key 0 bs) := by
  have hguard : usesDumpPath kd true = true := by
    simp [usesDumpPath, hd, List.length_pos, hne]
  unfold importKey
  rw [hguard]
  simp only [if_pos]
  have hzero : (if kd.ttl < 0 then 0 else kd.ttl) = 0 := by
    rcases lt_or_eq_of_le ht with h | h
    · simp [h]
    · simp [← h]
  rw [hzero]
  have hgd : kd.dump.getD [] = bs := by rw [hd]; rfl
  rw [hgd]
  cases hR : c.restoreReplace s kd.key 0 bs with
  | mk e s2 =>
    cases e <;> simp [callOutcome]

/-- C2 amended: the remaining-TTL field is persisted in the export file
exactly as the source client reported it — a negative no-expiration read is
NOT normalized at capture time; the normalization to the no-expiration
value 0 only happens at restore time, in the opaque path of `importKey`. -/
theorem claim2_ttl_persisted_as_read :
    (∀ (c : SourceClient) (key : String) (u : Bool) (kd : KeyData),
      exportKey c key u = .ok kd → c.ttl key = .ok kd.ttl) ∧
    (∀ (σ : Type) (c : Client σ) (s : σ) (kd : KeyData) (bs : List Nat),
      kd.dump = some bs → bs ≠ [] → kd.ttl < 0 →
      importKey c s kd true = callOutcome (c.restoreReplace s kd.key 0 bs)) :=
  ⟨exportKey_ok_ttl,
   fun σ c s kd bs hd hne ht =>
     importKey_dump_ttl0 σ c s kd bs hd hne (le_of_lt ht)⟩

/-- Witness for C2's amended theorem at concrete inputs. -/
theorem claim2_witness :
    srcNoExpire.ttl "k" = .ok ((-1 : Int)) ∧
    importKey unitClient () ⟨"k", "string", -2, none, some [7]⟩ true
      = callOutcome (unitClient.restoreReplace () "k" 0 [7]) :=
  ⟨claim2_ttl_persisted_as_read.1 srcNoExpire "k" true
      ⟨"k", "string", -1, none, some [0, 1]⟩ rfl,
   claim2_ttl_persisted_as_read.2 Unit unitClient ()
      ⟨"k", "string", -2, none, some [7]⟩ [7] rfl (by simp) (by norm_num)⟩

/-- C2 counterexample: capturing a key whose TTL read is the negative
no-expiration sentinel `-1` persists the snapshot with the TTL field equal
to `-1`, which is negative — nothing normalizes it before persisting. -/
theorem claim2_counterexample :
    exportKey srcNoExpire "k" true
      = .ok ⟨"k", "string", -1, none, some [0, 1]⟩ ∧
    (-1 : Int) < 0 :=
  ⟨rfl, by norm_num⟩

/-- C3: the decomposed zset restore branch crashes (Go panic from the
unchecked type assertions `v.(map[string]interface{})` and
`zval["Score"].(float64)`) instead of returning a restore error, both when a
stored element is not a map and when its score is not a float — while every
other branch returns an error through checked assertions.  This contradicts
the spec, which requires a capture/restore error, not a crash. -/
theorem claim3_zset_type_assertions_panic :
    importValueByType unitClient ()
        ⟨"k", "zset", 0, some (.varr [.vstr "x"]), none⟩
      = .crash "interface conversion: element is not a map" () ∧
    importValueByType unitClient ()
        ⟨"k", "zset", 0,
          some (.varr [.vmap [("Score", .vstr "1"), ("Member", .vstr "m")]]),
          none⟩
      = .crash "interface conversion: Score is not a float64" () ∧
    (importValueByType unitClient ()
        ⟨"k", "string", 0, some (.varr []), none⟩).noCrash = true :=
  ⟨rfl, rfl, rfl⟩

/-- C6: restoring an opaque snapshot with a non-empty payload and a
non-positive (or sentinel) remaining TTL issues the atomic replace-on-
conflict call with TTL argument 0 — the no-expiration value — and issues no
other request, hence never an immediate-expiry one. -/
theorem claim6_opaque_restore_no_expiry :
    ∀ (σ : Type) (c : Client σ) (s : σ) (kd : KeyData) (bs : List Nat),
      kd.dump = some bs → bs ≠ [] → kd.ttl ≤ 0 →
      importKey c s kd true = callOutcome (c.restoreReplace s kd.key 0 bs) :=
  importKey_dump_ttl0

/-- Witness for C6 at a concrete input. -/
theorem claim6_witness :
    importKey unitClient () ⟨"k", "string", -1, none, some [7]⟩ true
      = callOutcome (unitClient.restoreReplace () "k" 0 [7]) :=
  claim6_opaque_restore_no_expiry Unit unitClient ()
    ⟨"k", "string", -1, none, some [7]⟩ [7] rfl (by simp) (by norm_num)

/-- C7 amended: under the DECOMPOSED strategy, a key whose type tag is
outside {string, list, set, zset, hash} fails capture with the
unsupported-type error and the capture loop records the failure and
continues; under the OPAQUE strategy no type check is performed at all (see
the counterexample), so the claim's "regardless of strategy" does not hold. -/
theorem claim7_unsupported_type_decomposed :
    ∀ (c : SourceClient) (key t : String),
      t ∉ ["string", "list", "set", "zset", "hash"] →
      exportValueByType c key t = .error ("unsupported type:   " ++ t) ∧
      (∀ ttlv : Int, c.ttl key = .ok ttlv → c.typeOf key = .ok t →
        exportKey c key false
          = .error ("failed to export value:   " ++
              ("unsupported type:   " ++ t))) ∧
      (∀ (capture : String → Except String KeyData) (ks : List String)
          (msg : String),
        capture key = .error msg →
        exportLoop capture (key :: ks)
          = ((exportLoop capture ks).1, (exportLoop capture ks).2.1,
              (exportLoop capture ks).2.2 + 1)) := by
  intro c key t ht
  have hval : exportValueByType c key t
      = .error ("unsupported type:   " ++ t) := by
    unfold exportValueByType
    split <;> simp_all
  refine ⟨hval, ?_, ?_⟩
  · intro ttlv hT hTy
    unfold exportKey
    rw [hT, hTy]
    simp [hval]
  · intro capture ks msg hcap
    conv_lhs => rw [exportLoop]
    rw [hcap]

/-- Witness for C7's amended theorem at concrete inputs. -/
theorem claim7_witness :
    exportValueByType srcStream "k" "stream"
      = .error ("unsupported type:   " ++ "stream") ∧
    exportKey srcStream "k" false
      = .error ("failed to export value:   " ++
          ("unsupported type:   " ++ "stream")) :=
  ⟨(claim7_unsupported_type_decomposed srcStream "k" "stream" (by decide)).1,
   (claim7_unsupported_type_decomposed srcStream "k" "stream"
      (by decide)).2.1 (-1) rfl rfl⟩

/-- C7 counterexample: under the opaque strategy a key of the unsupported
type `stream` is captured successfully via DUMP — no UnsupportedType error
is raised, refuting "regardless of which capture strategy is configured". -/
theorem claim7_counterexample :
    exportKey srcStream "k" true = .ok ⟨"k", "stream", -1, none, some [1, 2]⟩ ∧
    "stream" ∉ ["string", "list", "set", "zset", "hash"] :=
  ⟨rfl, by decide⟩

lemma exportLoop_all_ok (capture : String → Except String KeyData) :
    ∀ keys : List String, (∀ k ∈ keys, ∃ kd, capture k = .ok kd) →
      (exportLoop capture keys).2.2 = 0 ∧
      (exportLoop capture keys).2.1 = keys.length ∧
      (exportLoop capture keys).1.length = keys.length ∧
      ∀ kd ∈ (exportLoop capture keys).1, ∃ k ∈ keys, capture k = .ok kd := by
  intro keys
  induction keys with
  | nil => intro _; simp [exportLoop]
  | cons k ks ih =>
    intro hok
    obtain ⟨kd, hkd⟩ := hok k (by simp)
    have ihs := ih (fun k' hk' => hok k' (by simp [hk']))
    have hstep : exportLoop capture (k :: ks)
        = (kd :: (exportLoop capture ks).1, (exportLoop capture ks).2.1 + 1,
            (exportLoop capture ks).2.2) := by
      conv_lhs => rw [exportLoop]
      rw [hkd]
    rw [hstep]
    refine ⟨by simpa using ihs.1, by simpa using ihs.2.1,
      by simpa using ihs.2.2.1, ?_⟩
    intro kd' hkd'
    rcases List.mem_cons.mp hkd' with h | h
    · subst h; exact ⟨k, by simp, hkd⟩
    · obtain ⟨k', hk', hc⟩ := ihs.2.2.2 kd' h
      exact ⟨k', by simp [hk'], hc⟩

/-- C5: in a batch where exactly one key's capture fails, the run is not
aborted: the other N-1 keys are captured, the failure counter equals 1,
and the written export file holds exactly the successfully captured
snapshots. -/
theorem claim5_single_failure_isolated :
    ∀ (capture : String → Except String KeyData) (keys : List String)
      (kf : String),
      keys.count kf = 1 →
      (∃ msg, capture kf = .error msg) →
      (∀ k ∈ keys, k ≠ kf → ∃ kd, capture k = .ok kd) →
      (exportLoop capture keys).2.2 = 1 ∧
      (exportLoop capture keys).2.1 = keys.length - 1 ∧
      (exportLoop capture keys).1.length = keys.length - 1 ∧
      (∀ kd ∈ (exportLoop capture keys).1, ∃ k ∈ keys, capture k = .ok kd) ∧
      exportKeys keys capture
        = .ok (some (exportLoop capture keys).1, keys.length - 1, 1) := by
  intro capture keys kf hcount hfail hok
  obtain ⟨msg, hmsg⟩ := hfail
  have hmain : (exportLoop capture keys).2.2 = 1 ∧
      (exportLoop capture keys).2.1 = keys.length - 1 ∧
      (exportLoop capture keys).1.length = keys.length - 1 ∧
      (∀ kd ∈ (exportLoop capture keys).1, ∃ k ∈ keys, capture k = .ok kd) := by
    induction keys with
    | nil => simp at hcount
    | cons k ks ih =>
      by_cases hk : k = kf
      · subst hk
        have hzero : ks.count k = 0 := by
          rw [List.count_cons_self] at hcount
          omega
        have hknot : k ∉ ks := by
          rw [← List.count_eq_zero]; exact hzero
        have hall : ∀ k' ∈ ks, ∃ kd, capture k' = .ok kd := by
          intro k' hk'
          refine hok k' (by simp [hk']) ?_
          intro hEq; rw [hEq] at hk'; exact hknot hk'
        have hrest := exportLoop_all_ok capture ks hall
        have hstep : exportLoop capture (k :: ks)
            = ((exportLoop capture ks).1, (exportLoop capture ks).2.1,
                (exportLoop capture ks).2.2 + 1) := by
          conv_lhs => rw [exportLoop]
          rw [hmsg]
        rw [hstep]
        refine ⟨by simp [hrest.1], by simp [hrest.2.1],
          by simp [hrest.2.2.1], ?_⟩
        intro kd hkd
        obtain ⟨k', hk', hc⟩ := hrest.2.2.2 kd hkd
        exact ⟨k', by simp [hk'], hc⟩
      · have hcount' : ks.count kf = 1 := by
          rw [List.count_cons] at hcount
          simpa [hk] using hcount
        have hkfpos : 0 < ks.count kf := by omega
        have hkfin : kf ∈ ks := by
          by_contra hcon
          rw [← List.count_eq_zero] at hcon
          omega
        have hkslen : 1 ≤ ks.length := List.length_pos.mpr
          (fun hEq => by rw [hEq] at hkfin; cases hkfin)
        obtain ⟨kd, hkd⟩ := hok k (by simp) hk
        have ih' := ih hcount' (fun k' h' hne => hok k' (by simp [h']) hne)
        have hstep : exportLoop capture (k :: ks)
            = (kd :: (exportLoop capture ks).1,
                (exportLoop capture ks).2.1 + 1,
                (exportLoop capture ks).2.2) := by
          conv_lhs => rw [exportLoop]
          rw [hkd]
        rw [hstep]
        refine ⟨by simp [ih'.1], ?_, ?_, ?_⟩
        · have := ih'.2.1
          simp only [List.length_cons]
          omega
        · have := ih'.2.2.1
          simp only [List.length_cons]
          simp only [List.length_cons] at *
          omega
        · intro kd' hkd'
          rcases List.mem_cons.mp hkd' with h | h
          · subst h; exact ⟨k, by simp, hkd⟩
          · obtain ⟨k', hk', hc⟩ := ih'.2.2.2 kd' h
            exact ⟨k', by simp [hk'], hc⟩
  have hne : keys.isEmpty = false := by
    have hpos : 0 < keys.count kf := by omega
    have hin : kf ∈ keys := by
      by_contra hcon
      rw [← List.count_eq_zero] at hcon
      omega
    cases keys with
    | nil => cases hin
    | cons a l => rfl
  refine ⟨hmain.1, hmain.2.1, hmain.2.2.1, hmain.2.2.2, ?_⟩
  simp [exportKeys, hne, hmain.1, hmain.2.1]

/-- Witness for C5 at concrete inputs: three keys with exactly the middle
one failing capture. -/
theorem claim5_witness :
    (exportLoop captureOneBad ["a", "bad", "b"]).2.2 = 1 ∧
    (exportLoop captureOneBad ["a", "bad", "b"]).2.1 = 2 :=
  ⟨(claim5_single_failure_isolated captureOneBad ["a", "bad", "b"] "bad"
      (by decide) ⟨"unsupported type:   stream", rfl⟩
      (fun k hk hne => ⟨⟨k, "string", 0, some (.vstr "v"), none⟩,
        by simp [captureOneBad, hne]⟩)).1,
   (claim5_single_failure_isolated captureOneBad ["a", "bad", "b"] "bad"
      (by decide) ⟨"unsupported type:   stream", rfl⟩
      (fun k hk hne => ⟨⟨k, "string", 0, some (.vstr "v"), none⟩,
        by simp [captureOneBad, hne]⟩)).2.1⟩

lemma rpushAll_ok_of (σ : Type) (c : Client σ)
    (hr : ∀ s k v, (c.rpush s k v).1 = none) :
    ∀ (vs : List GoVal) (s : σ) (k : String),
      (rpushAll c s k vs).isOk = true := by
  intro vs
  induction vs with
  | nil => intro s k; rfl
  | cons v rest ih =>
    intro s k
    cases hres : c.rpush s k v with
    | mk e s2 =>
      have he : e = none := by have := hr s k v; rw [hres] at this; exact this
      subst he
      simp only [rpushAll, hres]
      exact ih s2 k

lemma saddAll_ok_of (σ : Type) (c : Client σ)
    (hs : ∀ s k v, (c.sadd s k v).1 = none) :
    ∀ (vs : List GoVal) (s : σ) (k : String),
      (saddAll c s k vs).isOk = true := by
  intro vs
  induction vs with
  | nil => intro s k; rfl
  | cons v rest ih =>
    intro s k
    cases hres : c.sadd s k v with
    | mk e s2 =>
      have he : e = none := by have := hs s k v; rw [hres] at this; exact this
      subst he
      simp only [saddAll, hres]
      exact ih s2 k

lemma expireIfPositive_isOk (σ : Type) (c : Client σ) (s : σ) (k : String)
    (t : Int) : (expireIfPositive c s k t).isOk = true := by
  unfold expireIfPositive
  by_cases h : t > 0 <;> simp [h, Outcome.isOk]

/-- C10: for decomposed list/set/hash/zset snapshots with a positive
remaining TTL, when every value write succeeds but the trailing
expiration-set call fails, the restore still reports success — the
expiration call's error is discarded, so the key counts as imported even
though its expiration was never applied. -/
theorem claim10_expire_error_discarded :
    ∀ (σ : Type) (c : Client σ) (s : σ) (kd : KeyData),
      (∀ s k v, (c.rpush s k v).1 = none) →
      (∀ s k v, (c.sadd s k v).1 = none) →
      (∀ s k fs, (c.hset s k fs).1 = none) →
      (∀ s k ms, (c.zadd s k ms).1 = none) →
      (∀ s k t, (c.expire s k t).1 ≠ none) →
      kd.ttl > 0 →
      ((kd.type = "list" ∨ kd.type = "set") →
        (∃ vs, kd.value = some (.varr vs)) →
        (importValueByType c s kd).isOk = true) ∧
      (kd.type = "hash" → (∃ m, kd.value = some (.vmap m)) →
        (importValueByType c s kd).isOk = true) ∧
      (kd.type = "zset" →
        (∃ vs ms, kd.value = some (.varr vs) ∧ buildZ vs = .ok ms) →
        (importValueByType c s kd).isOk = true) := by
  intro σ c s kd hr hs hh hz hef httl
  refine ⟨?_, ?_, ?_⟩
  · rintro (hty | hty) ⟨vs, hval⟩
    · unfold importValueByType
      rw [hty, hval]
      simp only [asArr]
      cases hloop : rpushAll c s kd.key vs with
      | ok s2 => exact expireIfPositive_isOk σ c s2 kd.key kd.ttl
      | err m s2 =>
        have := rpushAll_ok_of σ c hr vs s kd.key
        rw [hloop] at this; cases this
      | crash m s2 =>
        have := rpushAll_ok_of σ c hr vs s kd.key
        rw [hloop] at this; cases this
    · unfold importValueByType
      rw [hty, hval]
      simp only [asArr]
      cases hloop : saddAll c s kd.key vs with
      | ok s2 => exact expireIfPositive_isOk σ c s2 kd.key kd.ttl
      | err m s2 =>
        have := saddAll_ok_of σ c hs vs s kd.key
        rw [hloop] at this; cases this
      | crash m s2 =>
        have := saddAll_ok_of σ c hs vs s kd.key
        rw [hloop] at this; cases this
  · rintro hty ⟨m, hval⟩
    unfold importValueByType
    rw [hty, hval]
    simp only [asMap]
    cases hres : c.hset s kd.key m with
    | mk e s2 =>
      have he : e = none := by have := hh s kd.key m; rw [hres] at this; exact this
      subst he
      exact expireIfPositive_isOk σ c s2 kd.key kd.ttl
  · rintro hty ⟨vs, ms, hval, hbz⟩
    unfold importValueByType
    rw [hty, hval]
    simp only [asArr]
    rw [hbz]
    cases hres : c.zadd s kd.key ms with
    | mk e s2 =>
      have he : e = none := by have := hz s kd.key ms; rw [hres] at this; exact this
      subst he
      simp only [hres]
      exact expireIfPositive_isOk σ c s2 kd.key kd.ttl

/-- Witness for C10 at a concrete input: a list snapshot restored through a
client whose expiration-set call always fails. -/
theorem claim10_witness :
    (importValueByType expFailClient ()
        ⟨"k", "list", 5, some (.varr [.vstr "a"]), none⟩).isOk = true :=
  (claim10_expire_error_discarded Unit expFailClient ()
      ⟨"k", "list", 5, some (.varr [.vstr "a"]), none⟩
      (fun _ _ _ => rfl) (fun _ _ _ => rfl) (fun _ _ _ => rfl)
      (fun _ _ _ => rfl) (fun _ _ _ => by simp [expFailClient])
      (by norm_num)).1
    (Or.inl rfl) ⟨[.vstr "a"], rfl⟩

/-- C9: a snapshot captured by `exportKey` populates exactly one of the
opaque payload and the decomposed value, chosen solely by the run-level
strategy flag, and `importKey` run with the same flag selects the matching
restore path (given that the engine's DUMP payloads are never empty). -/
theorem claim9_strategy_exclusive :
    ∀ (c : SourceClient) (key : String) (u : Bool) (kd : KeyData),
      exportKey c key u = .ok kd →
      (∀ k bs, c.dump k = .ok bs → bs ≠ []) →
      (u = true → kd.value = none ∧ ∃ bs, kd.dump = some bs ∧ bs ≠ []) ∧
      (u = false → kd.dump = none ∧ ∃ v, kd.value = some v) ∧
      usesDumpPath kd u = u := by
  intro c key u kd h hdump
  unfold exportKey at h
  cases hT : c.ttl key with
  | error e => rw [hT] at h; cases h
  | ok t =>
    rw [hT] at h
    cases hTy : c.typeOf key with
    | error e => rw [hTy] at h; cases h
    | ok kt =>
      rw [hTy] at h
      cases u with
      | true =>
        simp only [if_pos] at h
        cases hD : c.dump key with
        | error e => rw [hD] at h; cases h
        | ok bs =>
          rw [hD] at h; cases h
          have hne : bs ≠ [] := hdump key bs hD
          refine ⟨fun _ => ⟨rfl, bs, rfl, hne⟩,
            fun hfalse => Bool.noConfusion hfalse, ?_⟩
          simp [usesDumpPath, List.length_pos, hne]
      | false =>
        simp only [Bool.false_eq_true, if_neg] at h
        cases hV : exportValueByType c key kt with
        | error e => rw [hV] at h; cases h
        | ok v =>
          rw [hV] at h; cases h
          exact ⟨fun htrue => Bool.noConfusion htrue, fun _ => ⟨rfl, v, rfl⟩,
            by simp [usesDumpPath]⟩

/-- Witness for C9 at concrete inputs under both strategies. -/
theorem claim9_witness :
    usesDumpPath ⟨"k", "string", -1, none, some [0, 1]⟩ true = true ∧
    usesDumpPath ⟨"k", "string", -1, some (.vstr "v"), none⟩ false = false :=
  ⟨(claim9_strategy_exclusive srcNoExpire "k" true
      ⟨"k", "string", -1, none, some [0, 1]⟩ rfl
      (fun k bs h => by cases h; simp)).2.2,
   (claim9_strategy_exclusive srcNoExpire "k" false
      ⟨"k", "string", -1, some (.vstr "v"), none⟩ rfl
      (fun k bs h => by cases h; simp)).2.2⟩

end KVSquirrel
